import Mathlib

/-!
Verification development for the resource-lifecycle and submission-epoch
subsystem of the mev native (Vulkan-style) backend.

The definitions below are a shallow embedding of the Rust source:
`src/vulkan/queue.rs` (command pools, epochs, submission),
`src/vulkan/device.rs` (weak dedup caches for samplers and layouts),
`src/vulkan/surface.rs` (swapchain lifecycle and retirement).

Native driver calls are modelled by oracle values describing the result the
driver returned for each call.  Native handles are natural numbers drawn from
a fresh-id counter; a bump of the counter corresponds to the construction of
one native object.
-/

namespace Mev

/-- Native call results relevant to the embedded code paths. -/
inductive VkRes where
  | success
  | errOutOfHostMemory
  | errOutOfDeviceMemory
  | errDeviceLost
deriving DecidableEq, Repr

/-- Outcome of an embedded operation: a value, a typed error, or process
abort.  `abort` covers `handle_host_oom()` (modelled from the spec:
`vulkan/mod.rs` is not in the source tree; §7 states host-memory exhaustion
deliberately aborts the process) and panics (`unexpected_error`,
`unimplemented!`, failed assertions). -/
inductive Res (ε α : Type) where
  | ok (a : α)
  | err (e : ε)
  | abort
deriving DecidableEq, Repr

/-- Mirrors `generic::OutOfMemory` (a fieldless struct). -/
inductive OutOfMemory where
  | oom
deriving DecidableEq, Repr

/-- Mirrors `generic::DeviceError`. -/
inductive DeviceError where
  | outOfMemory
  | deviceLost
deriving DecidableEq, Repr

/-- Modelled from the spec: `generic/surface.rs` is not in the source tree;
the surface code uses the variants `SurfaceError::OutOfMemory` and
`SurfaceError::SurfaceLost`. -/
inductive SurfaceError where
  | outOfMemory
  | surfaceLost
deriving DecidableEq, Repr

/-- Modelled from the spec: `map_oom` lives in the missing `vulkan/mod.rs`.
Host-memory exhaustion aborts the process (§7); device-memory exhaustion
becomes `OutOfMemory`; any other result is `unexpected_error` (a panic). -/
def map_oom : VkRes → Res OutOfMemory Unit
  | .success => .ok ()
  | .errOutOfHostMemory => .abort
  | .errOutOfDeviceMemory => .err .oom
  | .errDeviceLost => .abort

/-- Modelled from the spec: `map_device_error` lives in the missing
`vulkan/mod.rs`.  Host-memory exhaustion aborts; device-memory exhaustion and
device loss map onto the two `DeviceError` variants. -/
def map_device_error : VkRes → Res DeviceError Unit
  | .success => .ok ()
  | .errOutOfHostMemory => .abort
  | .errOutOfDeviceMemory => .err .outOfMemory
  | .errDeviceLost => .err .deviceLost

abbrev Handle := Nat

/-! ## Queue model (`src/vulkan/queue.rs`) -/

/-- Maximum number of pending epochs to keep in queue
(`const MAX_EPOCHS: usize = 3`). -/
def MAX_EPOCHS : Nat := 3

/-- Maximum number of command pools to keep in queue
(`const MAX_POOLS: usize = 3`). -/
def MAX_POOLS : Nat := 3

/-- Modelled from the spec: `vulkan/refs.rs` is not in the source tree.
A `Refs` value is the retained-resource set of one command buffer; `clear`
releases every reference and keeps the (empty) set for reuse. -/
structure Refs where
  resources : List Handle
deriving DecidableEq, Repr

def Refs.clear (_ : Refs) : Refs := ⟨[]⟩

def Refs.new : Refs := ⟨[]⟩

/-- One command pool: free list of command buffers, native pool handle, and
the number of currently allocated (outstanding) command buffers. -/
structure Pool where
  free_cbufs : List Handle
  pool : Handle
  allocated : Nat
deriving DecidableEq, Repr

/-- Epoch: completion fence, retained reference sets, and the
(command buffer, owning pool) pairs submitted under it. -/
structure Epoch where
  fence : Handle
  refs : List Refs
  cbufs : List (Handle × Handle)
deriving DecidableEq, Repr

/-- The fields of a `Frame` read by `Queue::submit` when staging a present:
present semaphore, swapchain handle (0 encodes `vk::SwapchainKHR::null()`),
image index and present fence. -/
structure QFrame where
  present : Handle
  swapchain : Handle
  idx : Nat
  fence : Handle
deriving DecidableEq, Repr

def QFrame.is_real (f : QFrame) : Bool := f.swapchain != 0

/-- A finished command buffer (`vulkan/command.rs`): native handle, owning
pool, recorded present requests and the retained-resource set. -/
structure CommandBuffer where
  handle : Handle
  pool : Handle
  present : List QFrame
  refs : Refs
deriving DecidableEq, Repr

/-- The mutable state of a `Queue`.  The `next_*` counters are the fresh-id
sources standing in for native object creation. -/
structure QueueState where
  pools : List Pool
  free_refs : List Refs
  wait_semaphores : List Handle
  wait_stages : List Nat
  signal_semaphores : List Handle
  this_epoch : Option Epoch
  pending_epochs : List Epoch
  present_semaphores : List Handle
  present_swapchains : List Handle
  present_indices : List Nat
  present_fences : List Handle
  next_fence : Nat
  next_pool : Nat
  next_cbuf : Nat
deriving DecidableEq, Repr

/-- `unsafe fn deallocate_cbuf`: find the owning pool and return the command
buffer to its free list (the caller guarantees the pool exists). -/
def deallocate_cbuf (cbuf pool : Handle) : List Pool → List Pool
  | [] => []
  | p :: ps =>
    if p.pool = pool then
      { p with free_cbufs := p.free_cbufs ++ [cbuf], allocated := p.allocated - 1 } :: ps
    else
      p :: deallocate_cbuf cbuf pool ps

/-- `Epoch::reset`: clear every reference set (keeping the vector for reuse),
return all command buffers to their owning pools, then reset the fence.
If the fence reset fails the epoch is returned partially reset, as in the
source ("resources are freed"). -/
def Epoch.reset (e : Epoch) (pools : List Pool) (resetFenceRes : VkRes) :
    (Epoch × List Pool) × Res OutOfMemory Unit :=
  let refs := e.refs.map Refs.clear
  let pools := e.cbufs.foldl (fun ps cp => deallocate_cbuf cp.1 cp.2 ps) pools
  let e := { e with refs := refs, cbufs := [] }
  ((e, pools), map_oom resetFenceRes)

/-- Oracle for one `PendingEpochs::recycle` call: result of
`wait_for_fences` on the front epoch and of `reset_fences` inside
`Epoch::reset`. -/
structure RecycleOracle where
  waitRes : VkRes
  resetFenceRes : VkRes
deriving DecidableEq, Repr

/-- `PendingEpochs::recycle`: if fewer than `MAX_EPOCHS` epochs are pending,
report that a new epoch may be created (`none`).  Otherwise block on the
front (oldest) epoch's fence, reset it and pop it for reuse.  Returns the
updated pending queue and pools, the fence that was waited on (if any), and
the result. -/
def PendingEpochs.recycle (pending : List Epoch) (pools : List Pool)
    (o : RecycleOracle) :
    (List Epoch × List Pool) × Option Handle × Res DeviceError (Option Epoch) :=
  if pending.length < MAX_EPOCHS then
    ((pending, pools), none, .ok none)
  else
    match pending with
    | [] => ((pending, pools), none, .ok none)
    | front :: rest =>
      match map_device_error o.waitRes with
      | .abort => ((front :: rest, pools), some front.fence, .abort)
      | .err e => ((front :: rest, pools), some front.fence, .err e)
      | .ok _ =>
        match front.reset pools o.resetFenceRes with
        | ((front2, pools2), .ok _) =>
          ((rest, pools2), some front.fence, .ok (some front2))
        | ((front2, pools2), .err _) =>
          ((front2 :: rest, pools2), some front.fence, .err .outOfMemory)
        | ((front2, pools2), .abort) =>
          ((front2 :: rest, pools2), some front.fence, .abort)

/-- Oracle for `Queue::get_epoch`: the recycle oracle plus the result of
`Device::new_fence` when a fresh epoch must be created. -/
structure GetEpochOracle where
  recycleO : RecycleOracle
  newFenceRes : VkRes
deriving DecidableEq, Repr

/-- `Queue::get_epoch`: return the current epoch, recycling the oldest
pending epoch or creating a fresh one when no epoch is open. -/
def Queue.get_epoch (s : QueueState) (o : GetEpochOracle) :
    QueueState × Res DeviceError Unit :=
  match s.this_epoch with
  | some _ => (s, .ok ())
  | none =>
    match PendingEpochs.recycle s.pending_epochs s.pools o.recycleO with
    | ((pending2, pools2), _, r) =>
      let s := { s with pending_epochs := pending2, pools := pools2 }
      match r with
      | .abort => (s, .abort)
      | .err e => (s, .err e)
      | .ok (some e) => ({ s with this_epoch := some e }, .ok ())
      | .ok none =>
        match map_oom o.newFenceRes with
        | .abort => (s, .abort)
        | .err _ => (s, .err .outOfMemory)
        | .ok _ =>
          ({ s with
              this_epoch := some { fence := s.next_fence, refs := [], cbufs := [] },
              next_fence := s.next_fence + 1 }, .ok ())

/-- `Queue::next_epoch`: move the open epoch to the back of the pending
queue (called after its fence was submitted). -/
def Queue.next_epoch (s : QueueState) : QueueState :=
  match s.this_epoch with
  | none => s
  | some e => { s with this_epoch := none, pending_epochs := s.pending_epochs ++ [e] }

/-- Release one command buffer: clear and retain its reference set, and
return it to its owning pool's free list. -/
def Queue.drop_one (s : QueueState) (cbuf : CommandBuffer) : QueueState :=
  { s with
      free_refs := s.free_refs ++ [cbuf.refs.clear],
      pools := deallocate_cbuf cbuf.handle cbuf.pool s.pools }

/-- `Queue::drop_command_buffer`: clear and retain each reference set, and
return each command buffer to its owning pool. -/
def Queue.drop_command_buffer (s : QueueState) (cbufs : List CommandBuffer) :
    QueueState :=
  cbufs.foldl Queue.drop_one s

/-- Result of the native `queue_present` call as matched by `Queue::submit`:
out-of-date, surface-lost and full-screen-lost are tolerated (images released,
semaphores queued). -/
inductive PresentRes where
  | success
  | hostOom
  | deviceOom
  | deviceLost
  | outOfDateOrLost
deriving DecidableEq, Repr

/-- Oracle for one `Queue::submit` call. -/
structure SubmitOracle where
  epochO : GetEpochOracle
  submitRes : VkRes
  presentRes : PresentRes
deriving DecidableEq, Repr

/-- Stage one present request of a command buffer (signal semaphore always;
swapchain, index and fence only for real frames). -/
def Queue.stage_frame (s : QueueState) (frame : QFrame) : QueueState :=
  if frame.is_real then
    { s with
        signal_semaphores := s.signal_semaphores ++ [frame.present],
        present_semaphores := s.present_semaphores ++ [frame.present],
        present_swapchains := s.present_swapchains ++ [frame.swapchain],
        present_indices := s.present_indices ++ [frame.idx],
        present_fences := s.present_fences ++ [frame.fence] }
  else
    { s with signal_semaphores := s.signal_semaphores ++ [frame.present] }

def Queue.stage_cbuf (s : QueueState) (cbuf : CommandBuffer) : QueueState :=
  cbuf.present.foldl Queue.stage_frame s

/-- Staging step of `Queue::submit`: push each command buffer's handle and
stage its present requests. -/
def Queue.submit_collect (s : QueueState) (cbufs : List CommandBuffer) :
    QueueState :=
  cbufs.foldl Queue.stage_cbuf s

/-- Error path of `Queue::submit`: truncate the staged semaphore and present
vectors back to their lengths at entry. -/
def Queue.submit_truncate (s : QueueState) (sigLen preSemLen preSwLen preIdxLen : Nat) :
    QueueState :=
  { s with
      signal_semaphores := s.signal_semaphores.take sigLen,
      present_semaphores := s.present_semaphores.take preSemLen,
      present_swapchains := s.present_swapchains.take preSwLen,
      present_indices := s.present_indices.take preIdxLen }

/-- Clear the staged present vectors after a (tolerated) present. -/
def Queue.clear_present (s : QueueState) : QueueState :=
  { s with
      present_semaphores := [],
      present_swapchains := [],
      present_indices := [],
      present_fences := [] }

/-- `Queue::submit`.  Follows the source control flow: obtain the epoch
(dropping the command buffers on OOM), stage handles and presents, perform
the native submit, and on success move every reference set and command buffer
into the current epoch, closing it into the pending queue when `check_point`
is set, then perform the batched present. -/
def Queue.submit (s : QueueState) (command_buffers : List CommandBuffer)
    (check_point : Bool) (o : SubmitOracle) : QueueState × Res DeviceError Unit :=
  let sigLen := s.signal_semaphores.length
  let preSemLen := s.present_semaphores.length
  let preSwLen := s.present_swapchains.length
  let preIdxLen := s.present_indices.length
  match Queue.get_epoch s o.epochO with
  | (s, .abort) => (s, .abort)
  | (s, .err .outOfMemory) =>
    (Queue.drop_command_buffer s command_buffers, .err .outOfMemory)
  | (s, .err .deviceLost) => (s, .err .deviceLost)
  | (s, .ok _) =>
    let s := Queue.submit_collect s command_buffers
    match o.submitRes with
    | .errOutOfHostMemory =>
      -- Command buffers are cleared (dropped) without being returned to
      -- their pools, then `handle_host_oom()` aborts the process.
      (Queue.submit_truncate s sigLen preSemLen preSwLen preIdxLen, .abort)
    | .errOutOfDeviceMemory =>
      -- the drain loop performs exactly the operations of drop_command_buffer
      let s := Queue.submit_truncate s sigLen preSemLen preSwLen preIdxLen
      let s := Queue.drop_command_buffer s command_buffers
      (s, .err .outOfMemory)
    | .errDeviceLost =>
      (Queue.submit_truncate s sigLen preSemLen preSwLen preIdxLen, .err .deviceLost)
    | .success =>
      match s.this_epoch with
      | none => (s, .abort)  -- unreachable: get_epoch succeeded
      | some epoch =>
        let epoch :=
          { epoch with
              refs := epoch.refs ++ command_buffers.map (fun c => c.refs),
              cbufs := epoch.cbufs ++ command_buffers.map (fun c => (c.handle, c.pool)) }
        let s := { s with this_epoch := some epoch,
                          wait_semaphores := [], wait_stages := [],
                          signal_semaphores := [] }
        let s := if check_point then Queue.next_epoch s else s
        if s.present_swapchains.isEmpty then (s, .ok ())
        else
          match o.presentRes with
          | .success => (Queue.clear_present s, .ok ())
          | .hostOom => (s, .abort)
          | .deviceOom => (s, .err .outOfMemory)
          | .deviceLost => (s, .err .deviceLost)
          | .outOfDateOrLost => (Queue.clear_present s, .ok ())

/-- `Queue::wait_idle`: wait for the native queue; on success or
device-memory error release every pending epoch's reference sets
(`PendingEpochs::queue_is_idle`); host-memory exhaustion and device loss
diverge before that point. -/
def Queue.wait_idle (s : QueueState) (waitRes : VkRes) :
    QueueState × Res OutOfMemory Unit :=
  match waitRes with
  | .errOutOfHostMemory => (s, .abort)
  | .errDeviceLost => (s, .abort)
  | .errOutOfDeviceMemory =>
    ({ s with pending_epochs := s.pending_epochs.map fun e => { e with refs := [] } },
      .err .oom)
  | .success =>
    ({ s with pending_epochs := s.pending_epochs.map fun e => { e with refs := [] } },
      .ok ())

/-- `Queue::refresh_pools`: if the front (least-recently-used) pool has no
outstanding command buffers, reset its native pool and move it to the back
(most-recently-used) position. -/
def Queue.refresh_pools (pools : List Pool) (resetRes : VkRes) :
    List Pool × Res OutOfMemory Unit :=
  match pools with
  | [] => ([], .ok ())
  | front :: rest =>
    if front.allocated = 0 then
      match map_oom resetRes with
      | .ok _ => (rest ++ [front], .ok ())
      | .err e => (front :: rest, .err e)
      | .abort => (front :: rest, .abort)
    else
      (front :: rest, .ok ())

/-- `Queue::get_pool`: reuse the back (most-recently-used) pool when the pool
bound is reached or the back pool is empty; otherwise create a new pool and
push it to the back. -/
def Queue.get_pool (pools : List Pool) (nextPool : Nat) (createRes : VkRes) :
    (List Pool × Nat) × Res OutOfMemory Unit :=
  let more_pools := pools.length < MAX_POOLS
  let reuse := match pools.getLast? with
    | some pool => !more_pools || pool.allocated = 0
    | none => false
  if reuse then ((pools, nextPool), .ok ())
  else
    match map_oom createRes with
    | .ok _ =>
      ((pools ++ [{ pool := nextPool, free_cbufs := [], allocated := 0 }],
        nextPool + 1), .ok ())
    | .err e => ((pools, nextPool), .err e)
    | .abort => ((pools, nextPool), .abort)

/-- Oracle for one `Queue::new_command_encoder` call. -/
structure EncoderOracle where
  resetPoolRes : VkRes
  createPoolRes : VkRes
  allocRes : VkRes
  beginRes : VkRes
deriving DecidableEq, Repr

/-- `Pool::allocate`: take a command buffer from the free list when it is
non-empty (only `begin_command_buffer` is issued); otherwise perform a
genuine native allocation followed by `begin_command_buffer` (on begin
failure the fresh buffer is pushed to the free list). -/
def Pool.allocate (p : Pool) (nextCbuf : Nat) (o : EncoderOracle) :
    (Pool × Nat) × Res OutOfMemory Handle :=
  match p.free_cbufs.getLast? with
  | some cbuf =>
    match map_oom o.beginRes with
    | .err e => ((p, nextCbuf), .err e)
    | .abort => ((p, nextCbuf), .abort)
    | .ok _ =>
      (({ p with allocated := p.allocated + 1, free_cbufs := p.free_cbufs.dropLast },
        nextCbuf), .ok cbuf)
  | none =>
    match map_oom o.allocRes with
    | .err e => ((p, nextCbuf), .err e)
    | .abort => ((p, nextCbuf), .abort)
    | .ok _ =>
      let cbuf := nextCbuf
      match map_oom o.beginRes with
      | .err e =>
        (({ p with free_cbufs := p.free_cbufs ++ [cbuf] }, nextCbuf + 1), .err e)
      | .abort => ((p, nextCbuf + 1), .abort)
      | .ok _ =>
        (({ p with allocated := p.allocated + 1 }, nextCbuf + 1), .ok cbuf)

/-- Hand the encoder an existing free reference set when available
(`self.free_refs.pop().unwrap_or_else(Refs::new)`). -/
def Queue.take_refs (s : QueueState) : QueueState :=
  match s.free_refs.getLast? with
  | some _ => { s with free_refs := s.free_refs.dropLast }
  | none => s

/-- Allocate a command buffer from the given back pool and write the updated
pool back at the most-recently-used position. -/
def Queue.nce_alloc2 (s : QueueState) (back : Pool) (o : EncoderOracle) :
    QueueState × Res OutOfMemory Handle :=
  match Pool.allocate back s.next_cbuf o with
  | ((back2, nextCbuf), .err e) =>
    ({ s with pools := s.pools.dropLast ++ [back2], next_cbuf := nextCbuf },
      .err e)
  | ((back2, nextCbuf), .abort) =>
    ({ s with pools := s.pools.dropLast ++ [back2], next_cbuf := nextCbuf },
      .abort)
  | ((back2, nextCbuf), .ok cbuf) =>
    (Queue.take_refs
      { s with pools := s.pools.dropLast ++ [back2], next_cbuf := nextCbuf },
      .ok cbuf)

/-- Allocation tail of `Queue::new_command_encoder`. -/
def Queue.nce_alloc (s : QueueState) (o : EncoderOracle) :
    QueueState × Res OutOfMemory Handle :=
  match s.pools.getLast? with
  | none => (s, .abort)  -- unreachable: get_pool guarantees a back pool
  | some back => Queue.nce_alloc2 s back o

/-- Pool-selection step of `Queue::new_command_encoder`: pick (or create)
the back pool, then allocate from it. -/
def Queue.nce_pool (s : QueueState) (o : EncoderOracle) :
    QueueState × Res OutOfMemory Handle :=
  match Queue.get_pool s.pools s.next_pool o.createPoolRes with
  | ((pools, nextPool), .err e) =>
    ({ s with pools := pools, next_pool := nextPool }, .err e)
  | ((pools, nextPool), .abort) =>
    ({ s with pools := pools, next_pool := nextPool }, .abort)
  | ((pools, nextPool), .ok _) =>
    Queue.nce_alloc { s with pools := pools, next_pool := nextPool } o

/-- `Queue::new_command_encoder`: refresh the pools, pick (or create) the
back pool, allocate a command buffer from it, and hand it an existing free
reference set when available. -/
def Queue.new_command_encoder (s : QueueState) (o : EncoderOracle) :
    QueueState × Res OutOfMemory Handle :=
  match Queue.refresh_pools s.pools o.resetPoolRes with
  | (pools, .err e) => ({ s with pools := pools }, .err e)
  | (pools, .abort) => ({ s with pools := pools }, .abort)
  | (pools, .ok _) => Queue.nce_pool { s with pools := pools } o

/-- One user-visible queue operation together with its native-call oracle. -/
inductive QueueOp where
  | newCommandEncoder (o : EncoderOracle)
  | submit (cbufs : List CommandBuffer) (check_point : Bool) (o : SubmitOracle)
  | waitIdle (res : VkRes)
deriving DecidableEq, Repr

def Queue.step (s : QueueState) : QueueOp → QueueState
  | .newCommandEncoder o => (Queue.new_command_encoder s o).1
  | .submit cbufs cp o => (Queue.submit s cbufs cp o).1
  | .waitIdle r => (Queue.wait_idle s r).1

/-- `Queue::new`: every collection starts empty and no epoch is open. -/
def Queue.initial : QueueState :=
  { pools := [], free_refs := [], wait_semaphores := [], wait_stages := [],
    signal_semaphores := [], this_epoch := none, pending_epochs := [],
    present_semaphores := [], present_swapchains := [], present_indices := [],
    present_fences := [], next_fence := 0, next_pool := 0, next_cbuf := 0 }

def Queue.run (ops : List QueueOp) : QueueState :=
  ops.foldl Queue.step Queue.initial

/-- Number of currently open epochs (zero or one). -/
def openCount (s : QueueState) : Nat := if s.this_epoch.isSome then 1 else 0

/-- Total number of `Epoch` objects owned by the queue. -/
def epochCount (s : QueueState) : Nat := s.pending_epochs.length + openCount s

/-! ## Weak dedup caches (`src/vulkan/device.rs`) -/

/-- A description value used as cache key.  The cache logic only uses its
structural equality (`d1 == d2`), so descriptions are abstracted to naturals. -/
abbrev Desc := Nat

/-- Modelled from the spec: `vulkan/sampler.rs` and `vulkan/layout.rs` are not
in the source tree.  A cached weak handle pairs the native handle with the
number of strong owners of the shared object; `upgrade` succeeds iff at least
one strong owner exists ("If present and the weak reference upgrades, return
the existing shared handle"), and `unused` holds iff there are zero strong
owners. -/
structure WeakEntry where
  handle : Handle
  strong : Nat
deriving DecidableEq, Repr

/-- Association-list lookup for a cache keyed by structural equality. -/
def lookupA : List (Desc × WeakEntry) → Desc → Option WeakEntry
  | [], _ => none
  | (d', w) :: rest, d => if d' = d then some w else lookupA rest d

/-- Association-list insert: replace the value of an occupied entry, append a
vacant one (hash-map `entry` semantics). -/
def insertA : List (Desc × WeakEntry) → Desc → WeakEntry → List (Desc × WeakEntry)
  | [], d, w => [(d, w)]
  | (d', w') :: rest, d, w =>
    if d' = d then (d, w) :: rest else (d', w') :: insertA rest d w

/-- A pipeline-layout description: the per-group argument lists (each group
is the description of one descriptor set layout) and the push-constants
size.  The cache logic uses only its structural equality. -/
structure PipelineLayoutDesc where
  groups : List Desc
  constants : Nat
deriving DecidableEq, Repr

/-- Association-list lookup for the pipeline-layout cache. -/
def lookupP : List (PipelineLayoutDesc × WeakEntry) → PipelineLayoutDesc →
    Option WeakEntry
  | [], _ => none
  | (d2, w) :: rest, d => if d2 = d then some w else lookupP rest d

/-- Association-list insert for the pipeline-layout cache: replace the value
of an occupied entry, append a vacant one. -/
def insertP : List (PipelineLayoutDesc × WeakEntry) → PipelineLayoutDesc →
    WeakEntry → List (PipelineLayoutDesc × WeakEntry)
  | [], d, w => [(d, w)]
  | (d2, w2) :: rest, d, w =>
    if d2 = d then (d, w) :: rest else (d2, w2) :: insertP rest d w

/-- Device-level state relevant to the dedup caches: the sampler,
descriptor-set-layout and pipeline-layout caches, the reported sampler
allocation limit, the
fresh-handle counter (counts native object constructions), the handles
destroyed so far, and whether the `Device` is still alive (the `WeakDevice`
upgrade succeeds). -/
structure CacheState where
  samplers : List (Desc × WeakEntry)
  set_layouts : List (Desc × WeakEntry)
  pipeline_layouts : List (PipelineLayoutDesc × WeakEntry)
  max_sampler_allocation_count : Nat
  next_handle : Nat
  destroyed : List Handle
  device_alive : Bool
deriving DecidableEq, Repr

/-- `Device::new_sampler_slow`: refuse when the cache already holds at least
`max_sampler_allocation_count` entries, otherwise perform the native
`create_sampler` call. -/
def Device.new_sampler_slow (st : CacheState) (count : Nat) (createRes : VkRes) :
    CacheState × Res OutOfMemory Handle :=
  if st.max_sampler_allocation_count ≤ count then (st, .err .oom)
  else
    match createRes with
    | .success => ({ st with next_handle := st.next_handle + 1 }, .ok st.next_handle)
    | .errOutOfHostMemory => (st, .abort)
    | .errOutOfDeviceMemory => (st, .err .oom)
    | .errDeviceLost => (st, .abort)  -- unexpected_error

/-- `Device::new_sampler`: look the description up under the cache lock.  An
occupied entry whose weak reference upgrades yields the existing shared
handle (one more strong owner, no native construction); otherwise the slow
path runs with the pre-lookup entry count and the fresh weak handle is
inserted. -/
def Device.new_sampler (st : CacheState) (d : Desc) (createRes : VkRes) :
    CacheState × Res OutOfMemory Handle :=
  let len := st.samplers.length
  match lookupA st.samplers d with
  | some w =>
    if 0 < w.strong then
      ({ st with samplers := insertA st.samplers d { w with strong := w.strong + 1 } },
        .ok w.handle)
    else
      match Device.new_sampler_slow st len createRes with
      | (st2, .ok h) =>
        ({ st2 with samplers := insertA st2.samplers d ⟨h, 1⟩ }, .ok h)
      | (st2, .err e) => (st2, .err e)
      | (st2, .abort) => (st2, .abort)
  | none =>
    match Device.new_sampler_slow st len createRes with
    | (st2, .ok h) =>
      ({ st2 with samplers := insertA st2.samplers d ⟨h, 1⟩ }, .ok h)
    | (st2, .err e) => (st2, .err e)
    | (st2, .abort) => (st2, .abort)

/-- `Device::new_set_layout_slow`: the native `create_descriptor_set_layout`
call (no allocation-count limit). -/
def Device.new_set_layout_slow (st : CacheState) (createRes : VkRes) :
    CacheState × Res OutOfMemory Handle :=
  match createRes with
  | .success => ({ st with next_handle := st.next_handle + 1 }, .ok st.next_handle)
  | .errOutOfHostMemory => (st, .abort)
  | .errOutOfDeviceMemory => (st, .err .oom)
  | .errDeviceLost => (st, .abort)  -- unexpected_error

/-- `Device::new_set_layout`: same lock-and-lookup shape as `new_sampler`,
without the allocation-count limit. -/
def Device.new_set_layout (st : CacheState) (d : Desc) (createRes : VkRes) :
    CacheState × Res OutOfMemory Handle :=
  match lookupA st.set_layouts d with
  | some w =>
    if 0 < w.strong then
      ({ st with set_layouts := insertA st.set_layouts d { w with strong := w.strong + 1 } },
        .ok w.handle)
    else
      match Device.new_set_layout_slow st createRes with
      | (st2, .ok h) =>
        ({ st2 with set_layouts := insertA st2.set_layouts d ⟨h, 1⟩ }, .ok h)
      | (st2, .err e) => (st2, .err e)
      | (st2, .abort) => (st2, .abort)
  | none =>
    match Device.new_set_layout_slow st createRes with
    | (st2, .ok h) =>
      ({ st2 with set_layouts := insertA st2.set_layouts d ⟨h, 1⟩ }, .ok h)
    | (st2, .err e) => (st2, .err e)
    | (st2, .abort) => (st2, .abort)

/-- `WeakDevice::drop_sampler`: a no-op when the device upgrade fails;
otherwise, under the cache lock, destroy the cached native handle only when
the entry for the description is present and its weak reference has zero
strong owners.  The entry itself is left in the cache. -/
def WeakDevice.drop_sampler (st : CacheState) (d : Desc) : CacheState :=
  if st.device_alive then
    match lookupA st.samplers d with
    | some w =>
      if w.strong = 0 then { st with destroyed := st.destroyed ++ [w.handle] }
      else st
    | none => st
  else st

/-- `WeakDevice::drop_descriptor_set_layout`: same shape as `drop_sampler`
on the set-layout cache. -/
def WeakDevice.drop_descriptor_set_layout (st : CacheState) (d : Desc) : CacheState :=
  if st.device_alive then
    match lookupA st.set_layouts d with
    | some w =>
      if w.strong = 0 then { st with destroyed := st.destroyed ++ [w.handle] }
      else st
    | none => st
  else st

/-- Set-layout collection loop of `Device::new_pipeline_layout_slow`: one
`new_set_layout` call per group of the description, stopping at the first
failure (`collect::<Result<Vec<_>, OutOfMemory>>`).  Each call consumes the
next oracle result (default success). -/
def Device.new_set_layouts (st : CacheState) :
    List Desc → List VkRes → CacheState × Res OutOfMemory (List Handle)
  | [], _ => (st, .ok [])
  | g :: rest, rs =>
    match Device.new_set_layout st g (rs.headD .success) with
    | (st, .ok h) =>
      match Device.new_set_layouts st rest rs.tail with
      | (st, .ok hs) => (st, .ok (h :: hs))
      | (st, .err e) => (st, .err e)
      | (st, .abort) => (st, .abort)
    | (st, .err e) => (st, .err e)
    | (st, .abort) => (st, .abort)

/-- `Device::new_pipeline_layout_slow`: create (or share) one descriptor set
layout per group of the description, then perform the native
`create_pipeline_layout` call (the push-constant range only shapes the create
info). -/
def Device.new_pipeline_layout_slow (st : CacheState) (d : PipelineLayoutDesc)
    (setRes : List VkRes) (createRes : VkRes) : CacheState × Res OutOfMemory Handle :=
  match Device.new_set_layouts st d.groups setRes with
  | (st, .err e) => (st, .err e)
  | (st, .abort) => (st, .abort)
  | (st, .ok _) =>
    match createRes with
    | .success => ({ st with next_handle := st.next_handle + 1 }, .ok st.next_handle)
    | .errOutOfHostMemory => (st, .abort)
    | .errOutOfDeviceMemory => (st, .err .oom)
    | .errDeviceLost => (st, .abort)  -- unexpected_error

/-- `Device::new_pipeline_layout`: same lock-and-lookup shape as
`new_sampler` on the pipeline-layout cache, with `new_pipeline_layout_slow`
as the miss path. -/
def Device.new_pipeline_layout (st : CacheState) (d : PipelineLayoutDesc)
    (setRes : List VkRes) (createRes : VkRes) : CacheState × Res OutOfMemory Handle :=
  match lookupP st.pipeline_layouts d with
  | some w =>
    if 0 < w.strong then
      ({ st with pipeline_layouts :=
          insertP st.pipeline_layouts d { w with strong := w.strong + 1 } },
        .ok w.handle)
    else
      match Device.new_pipeline_layout_slow st d setRes createRes with
      | (st2, .ok h) =>
        ({ st2 with pipeline_layouts := insertP st2.pipeline_layouts d ⟨h, 1⟩ }, .ok h)
      | (st2, .err e) => (st2, .err e)
      | (st2, .abort) => (st2, .abort)
  | none =>
    match Device.new_pipeline_layout_slow st d setRes createRes with
    | (st2, .ok h) =>
      ({ st2 with pipeline_layouts := insertP st2.pipeline_layouts d ⟨h, 1⟩ }, .ok h)
    | (st2, .err e) => (st2, .err e)
    | (st2, .abort) => (st2, .abort)

/-- `WeakDevice::drop_pipeline_layout`: a no-op when the device upgrade
fails; otherwise the pipeline layout's descriptor-update-template handles are
destroyed first, unconditionally, and then — under the cache lock — the
cached native pipeline-layout handle is destroyed only when the entry for the
description is present with zero strong owners. -/
def WeakDevice.drop_pipeline_layout (st : CacheState) (d : PipelineLayoutDesc)
    (templates : List Handle) : CacheState :=
  if st.device_alive then
    let st := { st with destroyed := st.destroyed ++ templates }
    match lookupP st.pipeline_layouts d with
    | some w =>
      if w.strong = 0 then { st with destroyed := st.destroyed ++ [w.handle] }
      else st
    | none => st
  else st

/-! ## Surface / swapchain model (`src/vulkan/surface.rs`) -/

/-- Number of frames to wait before retiring a suboptimal swapchain
(`const SUBOPTIMAL_RETIRE_COOLDOWN: u64 = 10`). -/
def SUBOPTIMAL_RETIRE_COOLDOWN : Nat := 10

def U32_MAX : Nat := 4294967295

/-- A swapchain image: native handle, whether it is detached (no outstanding
external strong references, `Image::detached`), and its extent. -/
structure SImage where
  handle : Handle
  detached : Bool
  extent : Nat × Nat
deriving DecidableEq, Repr

/-- A real swapchain: native handle, images each with their acquire and
present semaphores, and the `next` acquire semaphore. -/
structure Swapchain where
  handle : Handle
  images : List (SImage × Handle × Handle)
  next : Handle
deriving DecidableEq, Repr

/-- The 1-image stand-in used when the platform reports a degenerate extent. -/
structure FakeSwapchain where
  image : SImage
  semaphore : Handle
  frame_idx : Nat
deriving DecidableEq, Repr

inductive MaybeFakeSwapchain where
  | real (s : Swapchain)
  | fake (f : FakeSwapchain)
deriving DecidableEq, Repr

inductive SuboptimalRetire where
  | cooldown (n : Nat)
  | retire
deriving DecidableEq, Repr

/-- Surface state: the current swapchain (if initialized), the retirement
queue, the suboptimal cooldown, and the permanent `lost` flag.  The
`destroyed_*` lists record native destruction calls, `wait_idle_count`
counts blocking device idle-waits, and `next_id` is the fresh-handle
source for native object creation. -/
structure SurfaceState where
  current : Option MaybeFakeSwapchain
  retired : List MaybeFakeSwapchain
  suboptimal_retire : SuboptimalRetire
  lost : Bool
  destroyed_swapchains : List Handle
  destroyed_semaphores : List Handle
  wait_idle_count : Nat
  next_id : Nat
deriving DecidableEq, Repr

/-- Whether a retired swapchain may be destroyed: every image it produced is
detached. -/
def MaybeFakeSwapchain.can_destroy : MaybeFakeSwapchain → Bool
  | .real s => s.images.all fun i => i.1.detached
  | .fake f => f.image.detached

/-- The native swapchain handle of a retired entry (fake swapchains own no
native swapchain). -/
def MaybeFakeSwapchain.swapchainHandle : MaybeFakeSwapchain → Option Handle
  | .real s => some s.handle
  | .fake _ => none

/-- Record the native destruction of one retired entry: for a real swapchain
the per-image acquire/present semaphores, the `next` semaphore and the
swapchain handle; for a fake swapchain only its semaphore. -/
def destroyEntry (st : SurfaceState) : MaybeFakeSwapchain → SurfaceState
  | .real s =>
    { st with
        destroyed_semaphores :=
          st.destroyed_semaphores
            ++ (s.images.foldl (fun a i => a ++ [i.2.1, i.2.2]) []) ++ [s.next],
        destroyed_swapchains := st.destroyed_swapchains ++ [s.handle] }
  | .fake f =>
    { st with destroyed_semaphores := st.destroyed_semaphores ++ [f.semaphore] }

/-- Loop body of `Surface::clear_retired`: pop retired swapchains from the
front while they can be destroyed; before the first destruction, if `do_wait`
is set, block on device idle once.  A non-destroyable entry is pushed back to
the front and the loop stops. -/
def Surface.clear_go (st : SurfaceState) :
    List MaybeFakeSwapchain → Bool → VkRes → SurfaceState × Res OutOfMemory Unit
  | [], _, _ => ({ st with retired := [] }, .ok ())
  | e :: rest, do_wait, waitRes =>
    if e.can_destroy then
      if do_wait then
        let st := { st with wait_idle_count := st.wait_idle_count + 1 }
        match waitRes with
        | .success => Surface.clear_go (destroyEntry st e) rest false waitRes
        | .errOutOfHostMemory => ({ st with retired := rest }, .abort)
        | .errDeviceLost => ({ st with retired := rest }, .abort)
        | .errOutOfDeviceMemory => ({ st with retired := rest }, .err .oom)
      else
        Surface.clear_go (destroyEntry st e) rest false waitRes
    else
      ({ st with retired := e :: rest }, .ok ())

/-- `Surface::clear_retired`. -/
def Surface.clear_retired (st : SurfaceState) (do_wait : Bool) (waitRes : VkRes) :
    SurfaceState × Res OutOfMemory Unit :=
  Surface.clear_go { st with retired := [] } st.retired do_wait waitRes

/-- `Surface::force_clear_retired`: block on device idle unconditionally,
run a non-waiting clear pass, and assert (panic if false) that nothing
remains retired. -/
def Surface.force_clear_retired (st : SurfaceState) (waitRes : VkRes) :
    SurfaceState × Res OutOfMemory Unit :=
  let st := { st with wait_idle_count := st.wait_idle_count + 1 }
  match waitRes with
  | .errOutOfHostMemory => (st, .abort)
  | .errDeviceLost => (st, .abort)
  | .errOutOfDeviceMemory => (st, .err .oom)
  | .success =>
    match Surface.clear_go { st with retired := [] } st.retired false waitRes with
    | (st, .ok _) =>
      if st.retired.length = 0 then (st, .ok ())
      else (st, .abort)  -- assert_eq! panics: user code held on to images
    | (st, r) => (st, r)

/-- `Surface::handle_retired`: a clear pass first, then a forced clear when
the retirement backlog has reached eight entries. -/
def Surface.handle_retired (st : SurfaceState) (waitRes1 waitRes2 : VkRes) :
    SurfaceState × Res OutOfMemory Unit :=
  match Surface.clear_retired st true waitRes1 with
  | (st, .ok _) =>
    if 8 ≤ st.retired.length then Surface.force_clear_retired st waitRes2
    else (st, .ok ())
  | (st, r) => (st, r)

/-- Result of `get_physical_device_surface_capabilities`: the platform
extent, or one of the mapped failures. -/
inductive CapsRes where
  | ok (extent : Nat × Nat)
  | hostOom
  | deviceOom
  | surfaceLost
deriving DecidableEq, Repr

/-- Result of the native `create_swapchain` call as matched by
`Surface::init` (window-in-use and initialization failure panic). -/
inductive SwapRes where
  | success
  | hostOom
  | deviceOom
  | deviceLostOrSurfaceLost
  | windowInUse
  | initFailed
deriving DecidableEq, Repr

/-- Oracle for one `Surface::init` call. -/
structure InitOracle where
  waitRes1 : VkRes
  waitRes2 : VkRes
  capsRes : CapsRes
  maxImageExtent : Nat × Nat
  newImageRes : VkRes
  semaphoreRes : VkRes
  createSwapchainRes : SwapRes
  getImagesRes : VkRes
  imageCount : Nat
  imageSems : List (VkRes × VkRes)
deriving DecidableEq, Repr

/-- Build the per-image wrappers of a fresh real swapchain: each image gets a
view (whose creation is unwrapped in the source) and an acquire and a present
semaphore.  A fresh image has no external owner yet, so it starts detached. -/
def Surface.build_images (extent : Nat × Nat) :
    Nat → List (VkRes × VkRes) → SurfaceState →
    SurfaceState × Res SurfaceError (List (SImage × Handle × Handle))
  | 0, _, st => (st, .ok [])
  | n + 1, sems, st =>
    let img : SImage := { handle := st.next_id, detached := true, extent := extent }
    let st := { st with next_id := st.next_id + 1 }
    let sres := sems.headD (VkRes.success, VkRes.success)
    match map_oom sres.1 with
    | .abort => (st, .abort)
    | .err _ => (st, .err .outOfMemory)
    | .ok _ =>
      let acq := st.next_id
      let st := { st with next_id := st.next_id + 1 }
      match map_oom sres.2 with
      | .abort => (st, .abort)
      | .err _ => (st, .err .outOfMemory)
      | .ok _ =>
        let pres := st.next_id
        let st := { st with next_id := st.next_id + 1 }
        match Surface.build_images extent n sems.tail st with
        | (st, .ok rest) => (st, .ok ((img, acq, pres) :: rest))
        | (st, .err e) => (st, .err e)
        | (st, .abort) => (st, .abort)

/-- Zero-extent branch of `Surface::init`: keep an existing fake swapchain,
otherwise retire a real one and create a fresh 1-image stand-in whose extent
clamps each zero dimension to 1. -/
def Surface.init_fake (st : SurfaceState) (o : InitOracle) (w h : Nat)
    (old : Option MaybeFakeSwapchain) : SurfaceState × Res SurfaceError Unit :=
  match old with
  | some (.fake f) => ({ st with current := some (.fake f) }, .ok ())
  | old =>
    let st := match old with
      | some (.real sc) => { st with retired := st.retired ++ [.real sc] }
      | _ => st
    match map_oom o.newImageRes with
    | .abort => (st, .abort)
    | .err _ => (st, .err .outOfMemory)
    | .ok _ =>
      let image : SImage :=
        { handle := st.next_id, detached := true, extent := (max w 1, max h 1) }
      let st := { st with next_id := st.next_id + 1 }
      match map_oom o.semaphoreRes with
      | .abort => (st, .abort)
      | .err _ => (st, .err .outOfMemory)
      | .ok _ =>
        let sem := st.next_id
        let st := { st with next_id := st.next_id + 1 }
        let fk : FakeSwapchain := { image := image, semaphore := sem, frame_idx := 0 }
        ({ st with current := some (.fake fk) }, .ok ())

/-- Real-swapchain branch of `Surface::init` (the old swapchain has already
been pushed onto the retirement queue, matching the source's "retired even if
creation fails"). -/
def Surface.init_real (st : SurfaceState) (o : InitOracle) (w h : Nat) :
    SurfaceState × Res SurfaceError Unit :=
  match o.createSwapchainRes with
  | .hostOom => (st, .abort)
  | .deviceOom => (st, .err .outOfMemory)
  | .deviceLostOrSurfaceLost => ({ st with lost := true }, .err .surfaceLost)
  | .windowInUse => (st, .abort)
  | .initFailed => (st, .abort)
  | .success =>
    let handle := st.next_id
    let st := { st with next_id := st.next_id + 1 }
    match map_oom o.semaphoreRes with
    | .abort => (st, .abort)
    | .err _ => (st, .err .outOfMemory)
    | .ok _ =>
      let next := st.next_id
      let st := { st with next_id := st.next_id + 1 }
      match map_oom o.getImagesRes with
      | .abort => (st, .abort)
      | .err _ => (st, .err .outOfMemory)
      | .ok _ =>
        match Surface.build_images (w, h) o.imageCount o.imageSems st with
        | (st, .abort) => (st, .abort)
        | (st, .err e) => (st, .err e)
        | (st, .ok images) =>
          let sc : Swapchain := { handle := handle, images := images, next := next }
          ({ st with current := some (.real sc) }, .ok ())

/-- `Surface::init`: handle retired swapchains, refuse when the surface is
lost, reset the suboptimal cooldown, query the surface capabilities, and
either install (or keep) a fake swapchain when the reported extent has a
zero dimension, or create a real swapchain (retiring the old one even when
creation fails). -/
def Surface.init (st : SurfaceState) (o : InitOracle) :
    SurfaceState × Res SurfaceError Unit :=
  match Surface.handle_retired st o.waitRes1 o.waitRes2 with
  | (st, .abort) => (st, .abort)
  | (st, .err _) => (st, .err .outOfMemory)
  | (st, .ok _) =>
  if st.lost then (st, .err .surfaceLost)
  else
  let st := { st with suboptimal_retire := .cooldown SUBOPTIMAL_RETIRE_COOLDOWN }
  match o.capsRes with
  | .hostOom => (st, .abort)
  | .deviceOom => (st, .err .outOfMemory)
  | .surfaceLost => ({ st with lost := true }, .err .surfaceLost)
  | .ok (w, h) =>
    let old := st.current
    let st := { st with current := none }
    if w = 0 ∨ h = 0 then
      Surface.init_fake st o w h old
    else
      -- use_extent (caps.current_extent or max_image_extent when both are
      -- u32::MAX) is consumed by the native create call only
      let _use_extent :=
        if w = U32_MAX ∧ h = U32_MAX then o.maxImageExtent else (w, h)
      let st := match old with
        | some old2 => { st with retired := st.retired ++ [old2] }
        | none => st
      Surface.init_real st o w h

/-- Result of `acquire_next_image` as matched by `Surface::next_frame`. -/
inductive AcqRes where
  | ok (idx : Nat) (suboptimal : Bool)
  | hostOom
  | deviceOom
  | lostLike   -- DEVICE_LOST, SURFACE_LOST_KHR or FULL_SCREEN_EXCLUSIVE_MODE_LOST
  | outOfDate
deriving DecidableEq, Repr

/-- Oracle for one iteration of the acquire loop. -/
structure AcquireStep where
  res : AcqRes
  initO : InitOracle
deriving DecidableEq, Repr

/-- Oracle for one `Surface::next_frame` call. -/
structure NextFrameOracle where
  clearWait : VkRes
  retireInitO : InitOracle
  initO : InitOracle
  steps : List AcquireStep
deriving DecidableEq, Repr

/-- A presentable frame as returned by `Surface::next_frame` (swapchain 0
encodes the null handle of a fake frame). -/
structure Frame where
  swapchain : Handle
  image : SImage
  idx : Nat
  acquire : Handle
  present : Handle
  synced : Bool
deriving DecidableEq, Repr

/-- Acquire loop of `Surface::next_frame`.  The source loops until a
non-out-of-date result; the oracle list bounds the modelled iterations and
`none` means the oracle did not determine termination (or an index was out of
range / `current` was unexpectedly empty, which panic in the source). -/
def Surface.next_frame_loop (st : SurfaceState) :
    List AcquireStep → Option (SurfaceState × Res SurfaceError Frame)
  | [] => none
  | step :: rest =>
    match st.current with
    | none => none  -- source unwraps: init always leaves a current swapchain
    | some (.real sc) =>
      match step.res with
      | .ok idx subopt =>
        let st :=
          if subopt ∧ st.suboptimal_retire = .cooldown 0 then
            { st with suboptimal_retire := .retire }
          else st
        match sc.images.get? idx with
        | none => none
        | some (img, acq, pres) =>
          -- mem::swap(&mut swapchain.next, acquire): the frame borrows the
          -- semaphore used by this acquire; the image gains an external owner.
          let newImages := sc.images.set idx ({ img with detached := false }, sc.next, pres)
          let sc2 : Swapchain := { sc with images := newImages, next := acq }
          let st := { st with current := some (.real sc2) }
          let fr : Frame := { swapchain := sc.handle, image := img, idx := idx,
                              acquire := sc.next, present := pres, synced := false }
          some (st, .ok fr)
      | .hostOom => some (st, .abort)
      | .deviceOom => some (st, .err .outOfMemory)
      | .lostLike => some ({ st with lost := true }, .err .surfaceLost)
      | .outOfDate =>
        match Surface.init st step.initO with
        | (st, .ok _) => Surface.next_frame_loop st rest
        | (st, .err e) => some (st, .err e)
        | (st, .abort) => some (st, .abort)
    | some (.fake f) =>
      let st :=
        if st.suboptimal_retire = .cooldown 0 then
          { st with suboptimal_retire := .retire }
        else st
      let frame : Frame :=
        { swapchain := 0, image := f.image, idx := 0,
          acquire := if 0 < f.frame_idx then f.semaphore else 0,
          present := f.semaphore, synced := false }
      let f2 : FakeSwapchain :=
        { f with image := { f.image with detached := false },
                 frame_idx := f.frame_idx + 1 }
      let st := { st with current := some (.fake f2) }
      some (st, .ok frame)

/-- Acquire stage of `Surface::next_frame`: initialize when no swapchain
exists, then run the acquire loop. -/
def Surface.nf_acquire (st : SurfaceState) (o : NextFrameOracle) :
    Option (SurfaceState × Res SurfaceError Frame) :=
  match (if st.current.isNone then Surface.init st o.initO else (st, .ok ())) with
  | (st, .abort) => some (st, .abort)
  | (st, .err e) => some (st, .err e)
  | (st, .ok _) => Surface.next_frame_loop st o.steps

/-- Suboptimal-cooldown stage of `Surface::next_frame`: count the cooldown
down, and re-initialize once it has expired and retirement was requested. -/
def Surface.nf_cooldown (st : SurfaceState) (o : NextFrameOracle) :
    Option (SurfaceState × Res SurfaceError Frame) :=
  match
    (match st.suboptimal_retire with
     | .cooldown 0 => (st, Res.ok ())
     | .cooldown (n + 1) => ({ st with suboptimal_retire := .cooldown n }, Res.ok ())
     | .retire => Surface.init st o.retireInitO : SurfaceState × Res SurfaceError Unit)
  with
  | (st, .abort) => some (st, .abort)
  | (st, .err e) => some (st, .err e)
  | (st, .ok _) => Surface.nf_acquire st o

/-- `Surface::next_frame`: clear retirable entries, handle the suboptimal
cooldown (re-initializing when it has expired), initialize when no swapchain
exists, then run the acquire loop. -/
def Surface.next_frame (st : SurfaceState) (o : NextFrameOracle) :
    Option (SurfaceState × Res SurfaceError Frame) :=
  match Surface.clear_retired st true o.clearWait with
  | (st, .abort) => some (st, .abort)
  | (st, .err _) => some (st, .err .outOfMemory)
  | (st, .ok _) => Surface.nf_cooldown st o

/-- Teardown entry of `Drop for Surface`: `force_clear_retired` runs first
(and its failure is unwrapped, i.e. panics). -/
def Surface.drop_clear (st : SurfaceState) (waitRes : VkRes) :
    SurfaceState × Res OutOfMemory Unit :=
  Surface.force_clear_retired st waitRes

/-- Fold destruction of a list of retired entries. -/
def destroyFold (st : SurfaceState) (l : List MaybeFakeSwapchain) : SurfaceState :=
  l.foldl destroyEntry st

/-- The native swapchain handles of a list of retired entries. -/
def realHandles (l : List MaybeFakeSwapchain) : List Handle :=
  l.filterMap MaybeFakeSwapchain.swapchainHandle

/-- The semaphores owned by one retired entry. -/
def entrySems : MaybeFakeSwapchain → List Handle
  | .real sc => (sc.images.foldl (fun a i => a ++ [i.2.1, i.2.2]) []) ++ [sc.next]
  | .fake f => [f.semaphore]

/-- Example init oracle: all native calls succeed, capabilities report the
degenerate extent 0×7. -/
def exInitOk : InitOracle :=
  { waitRes1 := .success, waitRes2 := .success, capsRes := .ok (0, 7),
    maxImageExtent := (800, 600), newImageRes := .success, semaphoreRes := .success,
    createSwapchainRes := .success, getImagesRes := .success, imageCount := 3,
    imageSems := [] }

/-- Example fresh surface state. -/
def exSurf0 : SurfaceState :=
  { current := none, retired := [], suboptimal_retire := .cooldown 10,
    lost := false, destroyed_swapchains := [], destroyed_semaphores := [],
    wait_idle_count := 0, next_id := 0 }

/-- Example init oracle with a non-degenerate extent. -/
def exInitReal : InitOracle := { exInitOk with capsRes := .ok (800, 600) }

/-- Example `next_frame` oracle whose acquire reports surface loss. -/
def exNfLost : NextFrameOracle :=
  { clearWait := .success, retireInitO := exInitReal, initO := exInitReal,
    steps := [{ res := .lostLike, initO := exInitReal }] }

/-- Example `next_frame` oracle whose acquire succeeds. -/
def exNfOk : NextFrameOracle :=
  { clearWait := .success, retireInitO := exInitReal, initO := exInitReal,
    steps := [{ res := .ok 0 false, initO := exInitReal }] }

/-- Surface with a real 800×600 swapchain installed. -/
def exC8a : SurfaceState := (Surface.init exSurf0 exInitReal).1

/-- The surface of `exC8a` after a `next_frame` call that observed surface
loss during acquire. -/
def exC8b : SurfaceState :=
  ((Surface.next_frame exC8a exNfLost).getD (exSurf0, Res.abort)).1

/-- The outcome of a further `next_frame` call on the lost surface. -/
def exC8c : SurfaceState × Res SurfaceError Frame :=
  (Surface.next_frame exC8b exNfOk).getD (exSurf0, Res.abort)

/-- A lost surface that has no current swapchain. -/
def exC8d : SurfaceState :=
  { exSurf0 with lost := true, suboptimal_retire := .cooldown 3 }

/-- The fake swapchain produced by initializing `exSurf0` against a reported
extent of 0×7. -/
def exC9fake : FakeSwapchain :=
  { image := { handle := 0, detached := true, extent := (1, 7) },
    semaphore := 1, frame_idx := 0 }

/-- A surface that already holds a fake swapchain. -/
def exC9keep : SurfaceState := { exSurf0 with current := some (.fake exC9fake) }

/-- A retired real swapchain all of whose images are detached. -/
def exDet : MaybeFakeSwapchain :=
  .real { handle := 5,
          images := [({ handle := 1, detached := true, extent := (1, 1) }, 2, 3)],
          next := 4 }

/-- A retired fake swapchain whose image still has an external owner. -/
def exUndet : MaybeFakeSwapchain :=
  .fake { image := { handle := 7, detached := false, extent := (1, 1) },
          semaphore := 8, frame_idx := 1 }

/-- Surface with one destroyable retired entry. -/
def exC5a : SurfaceState := { exSurf0 with retired := [exDet] }

/-- Surface whose retirement backlog holds eight undestroyable entries. -/
def exC5b : SurfaceState := { exSurf0 with retired := List.replicate 8 exUndet }

/-- Two queue states agreeing on everything except the staged semaphore and
present vectors. -/
def SameCore (s t : QueueState) : Prop :=
  t.pools = s.pools ∧ t.free_refs = s.free_refs ∧ t.this_epoch = s.this_epoch ∧
  t.pending_epochs = s.pending_epochs ∧ t.next_fence = s.next_fence ∧
  t.next_pool = s.next_pool ∧ t.next_cbuf = s.next_cbuf

/-- The queue invariant: the total number of epochs owned by the queue is at
most `MAX_EPOCHS`, and the pool count is at most `MAX_POOLS`. -/
def QueueInv (s : QueueState) : Prop :=
  epochCount s ≤ MAX_EPOCHS ∧ s.pools.length ≤ MAX_POOLS

/-- Example oracles and states used by the witnesses. -/
def exSubmitOk : SubmitOracle :=
  { epochO := { recycleO := ⟨.success, .success⟩, newFenceRes := .success },
    submitRes := .success, presentRes := .success }

def exCpSubmit : QueueOp := .submit [] true exSubmitOk

def exEncOp : QueueOp := .newCommandEncoder ⟨.success, .success, .success, .success⟩

def exEp (n : Nat) : Epoch := { fence := n, refs := [], cbufs := [] }

def exSt : QueueState :=
  { Queue.initial with
      pools := [{ free_cbufs := [], pool := 0, allocated := 1 }],
      next_pool := 1, next_cbuf := 1 }

def exSt1 : QueueState :=
  { exSt with this_epoch := some { fence := 0, refs := [], cbufs := [] },
              next_fence := 1 }

def exCb : CommandBuffer := { handle := 0, pool := 0, present := [], refs := ⟨[9]⟩ }

def exOomSubmit : SubmitOracle := { exSubmitOk with submitRes := .errOutOfDeviceMemory }

def exHostSubmit : SubmitOracle := { exSubmitOk with submitRes := .errOutOfHostMemory }

/-- Example pipeline-layout description. -/
def exC3p : PipelineLayoutDesc := { groups := [7], constants := 0 }

/-- Cache state whose pipeline-layout entry for `exC3p` is live (one strong
owner). -/
def exC3st : CacheState :=
  { samplers := [], set_layouts := [], pipeline_layouts := [(exC3p, ⟨60, 1⟩)],
    max_sampler_allocation_count := 8, next_handle := 70, destroyed := [],
    device_alive := true }

/-- Cache state with no pipeline-layout entry for `exC3p`. -/
def exC3stNone : CacheState := { exC3st with pipeline_layouts := [] }

/-! ## Lemmas about the dedup caches -/

theorem lookupA_insertA_self (m : List (Desc × WeakEntry)) (d : Desc) (w : WeakEntry) :
    lookupA (insertA m d w) d = some w := by
  induction m with
  | nil => simp [insertA, lookupA]
  | cons p rest ih =>
    by_cases h : p.1 = d
    · simp [insertA, h, lookupA]
    · simp [insertA, h, lookupA, ih]

theorem new_sampler_alive (st : CacheState) (d : Desc) (w : WeakEntry)
    (hl : lookupA st.samplers d = some w) (hs : 0 < w.strong) (r : VkRes) :
    Device.new_sampler st d r =
      ({ st with samplers := insertA st.samplers d { w with strong := w.strong + 1 } },
        .ok w.handle) := by
  simp [Device.new_sampler, hl, hs]

theorem new_sampler_ok_lookup (st st' : CacheState) (d : Desc) (h : Handle) (r : VkRes)
    (hok : Device.new_sampler st d r = (st', .ok h)) :
    ∃ n, lookupA st'.samplers d = some ⟨h, n⟩ ∧ 0 < n := by
  rcases hslow : Device.new_sampler_slow st st.samplers.length r with ⟨st2, res⟩
  cases hl : lookupA st.samplers d with
  | some w =>
    by_cases hs : 0 < w.strong
    · simp only [Device.new_sampler, hl, hs, if_pos] at hok
      cases hok
      exact ⟨w.strong + 1, lookupA_insertA_self .., Nat.succ_pos _⟩
    · simp only [Device.new_sampler, hl, hs, if_false, hslow] at hok
      cases res with
      | ok h2 =>
        simp only at hok
        cases hok
        exact ⟨1, lookupA_insertA_self .., Nat.one_pos⟩
      | err e => simp at hok
      | abort => simp at hok
  | none =>
    simp only [Device.new_sampler, hl, hslow] at hok
    cases res with
    | ok h2 =>
      simp only at hok
      cases hok
      exact ⟨1, lookupA_insertA_self .., Nat.one_pos⟩
    | err e => simp at hok
    | abort => simp at hok

theorem new_set_layout_alive (st : CacheState) (d : Desc) (w : WeakEntry)
    (hl : lookupA st.set_layouts d = some w) (hs : 0 < w.strong) (r : VkRes) :
    Device.new_set_layout st d r =
      ({ st with set_layouts := insertA st.set_layouts d { w with strong := w.strong + 1 } },
        .ok w.handle) := by
  simp [Device.new_set_layout, hl, hs]

theorem new_set_layout_ok_lookup (st st' : CacheState) (d : Desc) (h : Handle) (r : VkRes)
    (hok : Device.new_set_layout st d r = (st', .ok h)) :
    ∃ n, lookupA st'.set_layouts d = some ⟨h, n⟩ ∧ 0 < n := by
  rcases hslow : Device.new_set_layout_slow st r with ⟨st2, res⟩
  cases hl : lookupA st.set_layouts d with
  | some w =>
    by_cases hs : 0 < w.strong
    · simp only [Device.new_set_layout, hl, hs, if_pos] at hok
      cases hok
      exact ⟨w.strong + 1, lookupA_insertA_self .., Nat.succ_pos _⟩
    · simp only [Device.new_set_layout, hl, hs, if_false, hslow] at hok
      cases res with
      | ok h2 =>
        simp only at hok
        cases hok
        exact ⟨1, lookupA_insertA_self .., Nat.one_pos⟩
      | err e => simp at hok
      | abort => simp at hok
  | none =>
    simp only [Device.new_set_layout, hl, hslow] at hok
    cases res with
    | ok h2 =>
      simp only at hok
      cases hok
      exact ⟨1, lookupA_insertA_self .., Nat.one_pos⟩
    | err e => simp at hok
    | abort => simp at hok

theorem lookupP_insertP_self (m : List (PipelineLayoutDesc × WeakEntry))
    (d : PipelineLayoutDesc) (w : WeakEntry) :
    lookupP (insertP m d w) d = some w := by
  induction m with
  | nil => simp [insertP, lookupP]
  | cons q rest ih =>
    by_cases h : q.1 = d
    · simp [insertP, h, lookupP]
    · simp [insertP, h, lookupP, ih]

theorem new_pipeline_layout_alive (st : CacheState) (d : PipelineLayoutDesc)
    (w : WeakEntry) (hl : lookupP st.pipeline_layouts d = some w)
    (hs : 0 < w.strong) (sr : List VkRes) (r : VkRes) :
    Device.new_pipeline_layout st d sr r =
      ({ st with pipeline_layouts :=
          insertP st.pipeline_layouts d { w with strong := w.strong + 1 } },
        .ok w.handle) := by
  simp [Device.new_pipeline_layout, hl, hs]

theorem new_pipeline_layout_ok_lookup (st st2 : CacheState) (d : PipelineLayoutDesc)
    (h : Handle) (sr : List VkRes) (r : VkRes)
    (hok : Device.new_pipeline_layout st d sr r = (st2, .ok h)) :
    ∃ n, lookupP st2.pipeline_layouts d = some ⟨h, n⟩ ∧ 0 < n := by
  rcases hslow : Device.new_pipeline_layout_slow st d sr r with ⟨st3, res⟩
  cases hl : lookupP st.pipeline_layouts d with
  | some w =>
    by_cases hs : 0 < w.strong
    · simp only [Device.new_pipeline_layout, hl, hs, if_pos] at hok
      cases hok
      exact ⟨w.strong + 1, lookupP_insertP_self .., Nat.succ_pos _⟩
    · simp only [Device.new_pipeline_layout, hl, hs, if_false, hslow] at hok
      cases res with
      | ok h2 =>
        simp only at hok
        cases hok
        exact ⟨1, lookupP_insertP_self .., Nat.one_pos⟩
      | err e => simp at hok
      | abort => simp at hok
  | none =>
    simp only [Device.new_pipeline_layout, hl, hslow] at hok
    cases res with
    | ok h2 =>
      simp only at hok
      cases hok
      exact ⟨1, lookupP_insertP_self .., Nat.one_pos⟩
    | err e => simp at hok
    | abort => simp at hok

/-! ## Claim theorems: dedup caches -/

/-- C2: for any two equal descriptions, a second `new_sampler` (resp.
`new_set_layout`, `new_pipeline_layout`) call issued while the object
returned by the first call still has a strong owner returns the same native
handle and constructs no new native object (the creation counter is
unchanged) and destroys nothing. -/
theorem C2_cache_identity (d1 d2 : Desc) (p1 p2 : PipelineLayoutDesc)
    (st st' : CacheState) (h : Handle) (r1 r2 : VkRes) (s1 s2 : List VkRes)
    (heq : d1 = d2) (heqp : p1 = p2) :
    (Device.new_sampler st d1 r1 = (st', .ok h) →
      (Device.new_sampler st' d2 r2).2 = .ok h ∧
      (Device.new_sampler st' d2 r2).1.next_handle = st'.next_handle ∧
      (Device.new_sampler st' d2 r2).1.destroyed = st'.destroyed) ∧
    (Device.new_set_layout st d1 r1 = (st', .ok h) →
      (Device.new_set_layout st' d2 r2).2 = .ok h ∧
      (Device.new_set_layout st' d2 r2).1.next_handle = st'.next_handle ∧
      (Device.new_set_layout st' d2 r2).1.destroyed = st'.destroyed) ∧
    (Device.new_pipeline_layout st p1 s1 r1 = (st', .ok h) →
      (Device.new_pipeline_layout st' p2 s2 r2).2 = .ok h ∧
      (Device.new_pipeline_layout st' p2 s2 r2).1.next_handle = st'.next_handle ∧
      (Device.new_pipeline_layout st' p2 s2 r2).1.destroyed = st'.destroyed) := by
  subst heq
  subst heqp
  refine ⟨?_, ?_, ?_⟩
  · intro hok
    obtain ⟨n, hl, hn⟩ := new_sampler_ok_lookup st st' d1 h r1 hok
    rw [new_sampler_alive st' d1 ⟨h, n⟩ hl hn r2]
    exact ⟨rfl, rfl, rfl⟩
  · intro hok
    obtain ⟨n, hl, hn⟩ := new_set_layout_ok_lookup st st' d1 h r1 hok
    rw [new_set_layout_alive st' d1 ⟨h, n⟩ hl hn r2]
    exact ⟨rfl, rfl, rfl⟩
  · intro hok
    obtain ⟨n, hl, hn⟩ := new_pipeline_layout_ok_lookup st st' p1 h s1 r1 hok
    rw [new_pipeline_layout_alive st' p1 ⟨h, n⟩ hl hn s2 r2]
    exact ⟨rfl, rfl, rfl⟩

/-- Witness for C2 at concrete inputs: a repeated sampler creation and a
repeated pipeline-layout creation (whose slow path built two set layouts)
both return the cached handle without advancing the creation counter. -/
theorem C2_cache_identity_witness :
    let st : CacheState :=
      { samplers := [], set_layouts := [], pipeline_layouts := [],
        max_sampler_allocation_count := 4000,
        next_handle := 100, destroyed := [], device_alive := true }
    let st' := (Device.new_sampler st 7 .success).1
    let p : PipelineLayoutDesc := { groups := [7, 8], constants := 4 }
    let stp := (Device.new_pipeline_layout st p [.success, .success] .success).1
    ((Device.new_sampler st' 7 .success).2 = .ok 100 ∧
      (Device.new_sampler st' 7 .success).1.next_handle = st'.next_handle) ∧
    ((Device.new_pipeline_layout stp p [] .success).2 = .ok 102 ∧
      (Device.new_pipeline_layout stp p [] .success).1.next_handle = stp.next_handle) := by
  intro st st' p stp
  have hok : Device.new_sampler st 7 .success = (st', .ok 100) := by decide
  have hokp : Device.new_pipeline_layout st p [.success, .success] .success =
      (stp, .ok 102) := by decide
  have h1 := (C2_cache_identity 7 7 p p st st' 100 .success .success [] [] rfl rfl).1 hok
  have h2 := (C2_cache_identity 7 7 p p st stp 102 .success .success
    [.success, .success] [] rfl rfl).2.2 hokp
  exact ⟨⟨h1.1, h1.2.1⟩, h2.1, h2.2.1⟩

/-- C3 counterexample: `drop_pipeline_layout` destroys native handles (the
pipeline layout's descriptor-update templates) even when the cache entry for
the description is live (one strong owner) and even when it is absent — the
claim's "the callback destroys no native handle" clause fails for the
pipeline-layout drop callback. -/
theorem C3_counterexample :
    lookupP exC3st.pipeline_layouts exC3p = some ⟨60, 1⟩ ∧
    WeakDevice.drop_pipeline_layout exC3st exC3p [77] =
      { exC3st with destroyed := exC3st.destroyed ++ [77] } ∧
    lookupP exC3stNone.pipeline_layouts exC3p = none ∧
    WeakDevice.drop_pipeline_layout exC3stNone exC3p [78] =
      { exC3stNone with destroyed := exC3stNone.destroyed ++ [78] } ∧
    exC3st.destroyed ++ [77] ≠ exC3st.destroyed := by
  refine ⟨rfl, by decide, rfl, by decide, by decide⟩

/-- C3 (amended): with a dead device every drop callback is a no-op.
`drop_sampler` and `drop_descriptor_set_layout` destroy the cached native
handle exactly when the entry for the description is present with zero
strong owners, and destroy nothing otherwise.  `drop_pipeline_layout` first
destroys the pipeline layout's descriptor-update-template handles
unconditionally (before the cache-entry check), and destroys the cached
pipeline-layout handle itself only under the same present-with-zero-strong-
owners condition.  (Locking is modelled by the sequential atomicity of each
callback.) -/
theorem C3_drop_liveness_amended (st : CacheState) (d : Desc)
    (p : PipelineLayoutDesc) (ts : List Handle) :
    (st.device_alive = false →
      WeakDevice.drop_sampler st d = st ∧
      WeakDevice.drop_descriptor_set_layout st d = st ∧
      WeakDevice.drop_pipeline_layout st p ts = st) ∧
    (∀ w, st.device_alive = true → lookupA st.samplers d = some w → w.strong = 0 →
      WeakDevice.drop_sampler st d = { st with destroyed := st.destroyed ++ [w.handle] }) ∧
    (∀ w, lookupA st.samplers d = some w → 0 < w.strong →
      WeakDevice.drop_sampler st d = st) ∧
    (lookupA st.samplers d = none → WeakDevice.drop_sampler st d = st) ∧
    (∀ w, st.device_alive = true → lookupA st.set_layouts d = some w → w.strong = 0 →
      WeakDevice.drop_descriptor_set_layout st d =
        { st with destroyed := st.destroyed ++ [w.handle] }) ∧
    (∀ w, lookupA st.set_layouts d = some w → 0 < w.strong →
      WeakDevice.drop_descriptor_set_layout st d = st) ∧
    (lookupA st.set_layouts d = none →
      WeakDevice.drop_descriptor_set_layout st d = st) ∧
    (∀ w, st.device_alive = true → lookupP st.pipeline_layouts p = some w →
      w.strong = 0 →
      WeakDevice.drop_pipeline_layout st p ts =
        { st with destroyed := st.destroyed ++ ts ++ [w.handle] }) ∧
    (∀ w, st.device_alive = true → lookupP st.pipeline_layouts p = some w →
      0 < w.strong →
      WeakDevice.drop_pipeline_layout st p ts =
        { st with destroyed := st.destroyed ++ ts }) ∧
    (st.device_alive = true → lookupP st.pipeline_layouts p = none →
      WeakDevice.drop_pipeline_layout st p ts =
        { st with destroyed := st.destroyed ++ ts }) := by
  refine ⟨?_, ?_, ?_, ?_, ?_, ?_, ?_, ?_, ?_, ?_⟩
  · intro hdead
    refine ⟨?_, ?_, ?_⟩
    · simp [WeakDevice.drop_sampler, hdead]
    · simp [WeakDevice.drop_descriptor_set_layout, hdead]
    · simp [WeakDevice.drop_pipeline_layout, hdead]
  · intro w halive hl hz
    simp [WeakDevice.drop_sampler, halive, hl, hz]
  · intro w hl hs
    by_cases halive : st.device_alive
    · simp [WeakDevice.drop_sampler, halive, hl, Nat.pos_iff_ne_zero.mp hs]
    · simp [WeakDevice.drop_sampler, halive]
  · intro hl
    by_cases halive : st.device_alive
    · simp [WeakDevice.drop_sampler, halive, hl]
    · simp [WeakDevice.drop_sampler, halive]
  · intro w halive hl hz
    simp [WeakDevice.drop_descriptor_set_layout, halive, hl, hz]
  · intro w hl hs
    by_cases halive : st.device_alive
    · simp [WeakDevice.drop_descriptor_set_layout, halive, hl,
        Nat.pos_iff_ne_zero.mp hs]
    · simp [WeakDevice.drop_descriptor_set_layout, halive]
  · intro hl
    by_cases halive : st.device_alive
    · simp [WeakDevice.drop_descriptor_set_layout, halive, hl]
    · simp [WeakDevice.drop_descriptor_set_layout, halive]
  · intro w halive hl hz
    simp [WeakDevice.drop_pipeline_layout, halive, hl, hz]
  · intro w halive hl hs
    simp [WeakDevice.drop_pipeline_layout, halive, hl, Nat.pos_iff_ne_zero.mp hs]
  · intro halive hl
    simp [WeakDevice.drop_pipeline_layout, halive, hl]

/-- Witness for C3 (amended) at concrete inputs: a dead device is a no-op
for all three callbacks; a zero-strong-owner sampler entry is destroyed; a
pipeline-layout drop with no cache entry still destroys its
descriptor-update template. -/
theorem C3_drop_liveness_amended_witness :
    let stDead : CacheState :=
      { samplers := [(3, ⟨40, 0⟩)], set_layouts := [], pipeline_layouts := [],
        max_sampler_allocation_count := 8, next_handle := 50, destroyed := [],
        device_alive := false }
    let stLive : CacheState := { stDead with device_alive := true }
    let p : PipelineLayoutDesc := { groups := [], constants := 0 }
    (WeakDevice.drop_sampler stDead 3 = stDead ∧
      WeakDevice.drop_pipeline_layout stDead p [9] = stDead) ∧
    WeakDevice.drop_sampler stLive 3 =
      { stLive with destroyed := stLive.destroyed ++ [40] } ∧
    WeakDevice.drop_pipeline_layout stLive p [9] =
      { stLive with destroyed := stLive.destroyed ++ [9] } := by
  intro stDead stLive p
  have hd := (C3_drop_liveness_amended stDead 3 p [9]).1 (by decide)
  refine ⟨⟨hd.1, hd.2.2⟩, ?_, ?_⟩
  · exact (C3_drop_liveness_amended stLive 3 p [9]).2.1 ⟨40, 0⟩ (by decide)
      (by decide) (by decide)
  · exact (C3_drop_liveness_amended stLive 3 p [9]).2.2.2.2.2.2.2.2.2 (by decide)
      (by decide)

/-- C10: when the sampler cache has no live entry for the description and
already holds at least `max_sampler_allocation_count` entries, `new_sampler`
returns `Err(OutOfMemory)` without creating a native sampler and without
modifying the cache (the state is returned unchanged). -/
theorem C10_sampler_limit (st : CacheState) (d : Desc) (r : VkRes)
    (hmiss : lookupA st.samplers d = none ∨
      ∃ w, lookupA st.samplers d = some w ∧ w.strong = 0)
    (hfull : st.max_sampler_allocation_count ≤ st.samplers.length) :
    Device.new_sampler st d r = (st, .err .oom) := by
  have hslow : Device.new_sampler_slow st st.samplers.length r = (st, .err .oom) := by
    simp [Device.new_sampler_slow, hfull]
  rcases hmiss with hl | ⟨w, hl, hz⟩
  · simp [Device.new_sampler, hl, hslow]
  · simp [Device.new_sampler, hl, hz, hslow]

/-- Witness for C10 at concrete inputs: both a vacant and an expired entry
hit the limit check. -/
theorem C10_sampler_limit_witness :
    let st : CacheState :=
      { samplers := [(1, ⟨50, 2⟩), (2, ⟨51, 0⟩)], set_layouts := [],
        pipeline_layouts := [],
        max_sampler_allocation_count := 2, next_handle := 100, destroyed := [],
        device_alive := true }
    Device.new_sampler st 3 .success = (st, .err .oom) ∧
    Device.new_sampler st 2 .success = (st, .err .oom) := by
  intro st
  constructor
  · exact C10_sampler_limit st 3 .success (Or.inl (by decide)) (by decide)
  · exact C10_sampler_limit st 2 .success (Or.inr ⟨⟨51, 0⟩, by decide, rfl⟩) (by decide)

/-! ## Lemmas about the queue model -/

theorem deallocate_cbuf_length (c p : Handle) :
    ∀ ps : List Pool, (deallocate_cbuf c p ps).length = ps.length := by
  intro ps
  induction ps with
  | nil => rfl
  | cons q qs ih =>
    by_cases h : q.pool = p <;> simp [deallocate_cbuf, h, ih]

theorem foldl_deallocate_length (l : List (Handle × Handle)) :
    ∀ ps : List Pool,
      (l.foldl (fun ps cp => deallocate_cbuf cp.1 cp.2 ps) ps).length = ps.length := by
  induction l with
  | nil => intro ps; rfl
  | cons cp rest ih =>
    intro ps
    rw [List.foldl_cons, ih, deallocate_cbuf_length]

theorem Epoch.reset_pools_length (e : Epoch) (ps : List Pool) (r : VkRes) :
    (e.reset ps r).1.2.length = ps.length := by
  simp [Epoch.reset, foldl_deallocate_length]

theorem Epoch.reset_fence (e : Epoch) (ps : List Pool) (r : VkRes) :
    (e.reset ps r).1.1.fence = e.fence := by
  simp [Epoch.reset]

theorem recycle_lt (pending : List Epoch) (pools : List Pool) (o : RecycleOracle)
    (h : pending.length < MAX_EPOCHS) :
    PendingEpochs.recycle pending pools o = ((pending, pools), none, .ok none) := by
  simp [PendingEpochs.recycle, h]

/-- When the pending bound is reached, `recycle` waits on the front (oldest)
epoch's fence and, if both native calls succeed, pops exactly that epoch
(reset: reference sets cleared, command buffers drained, fence kept) leaving
the rest in order. -/
theorem recycle_ge_success (front : Epoch) (rest : List Epoch) (pools : List Pool)
    (h : ¬ (front :: rest).length < MAX_EPOCHS) :
    PendingEpochs.recycle (front :: rest) pools ⟨.success, .success⟩ =
      ((rest,
        front.cbufs.foldl (fun ps cp => deallocate_cbuf cp.1 cp.2 ps) pools),
        some front.fence,
        .ok (some { fence := front.fence, refs := front.refs.map Refs.clear,
                    cbufs := [] })) := by
  unfold PendingEpochs.recycle
  rw [if_neg h]
  rfl

/-- Whenever the pending bound is reached, the fence waited on is the front
epoch's fence, regardless of the native results. -/
theorem recycle_ge_waits_front (front : Epoch) (rest : List Epoch) (pools : List Pool)
    (o : RecycleOracle) (h : ¬ (front :: rest).length < MAX_EPOCHS) :
    (PendingEpochs.recycle (front :: rest) pools o).2.1 = some front.fence := by
  unfold PendingEpochs.recycle
  simp only [h, if_false]
  cases o.waitRes <;> simp [map_device_error] <;>
    rcases hr : front.reset pools o.resetFenceRes with ⟨⟨f2, p2⟩, r2⟩ <;>
    cases r2 <;> simp

theorem recycle_spec (pending : List Epoch) (pools : List Pool) (o : RecycleOracle) :
    (PendingEpochs.recycle pending pools o).1.2.length = pools.length ∧
    (match (PendingEpochs.recycle pending pools o).2.2 with
      | .ok (some _) => (PendingEpochs.recycle pending pools o).1.1.length + 1 =
          pending.length
      | _ => (PendingEpochs.recycle pending pools o).1.1.length = pending.length) := by
  by_cases h : pending.length < MAX_EPOCHS
  · rw [recycle_lt pending pools o h]
    exact ⟨rfl, rfl⟩
  · unfold PendingEpochs.recycle
    simp only [h, if_false]
    cases pending with
    | nil => exact absurd (by decide) h
    | cons front rest =>
      rcases hr : front.reset pools o.resetFenceRes with ⟨⟨f2, p2⟩, r2⟩
      have hp2 : p2.length = pools.length := by
        have hx := Epoch.reset_pools_length front pools o.resetFenceRes
        rw [hr] at hx
        exact hx
      cases hw : o.waitRes <;> cases r2 <;>
        simp [map_device_error, hw, hr, hp2] <;> omega

/-- If `recycle` reports that a new epoch may be created, the pending queue
was below the bound and nothing changed. -/
theorem recycle_ok_none (pending : List Epoch) (pools : List Pool) (o : RecycleOracle)
    (h : (PendingEpochs.recycle pending pools o).2.2 = .ok none) :
    PendingEpochs.recycle pending pools o = ((pending, pools), none, .ok none) ∧
      pending.length < MAX_EPOCHS := by
  by_cases hlt : pending.length < MAX_EPOCHS
  · exact ⟨recycle_lt pending pools o hlt, hlt⟩
  · exfalso
    unfold PendingEpochs.recycle at h
    simp only [hlt, if_false] at h
    cases pending with
    | nil => exact hlt (by decide)
    | cons front rest =>
      rcases hr : front.reset pools o.resetFenceRes with ⟨⟨f2, p2⟩, r2⟩
      cases hw : o.waitRes <;> cases r2 <;>
        simp [map_device_error, hw, hr] at h

theorem get_epoch_pools_length (s : QueueState) (o : GetEpochOracle) :
    (Queue.get_epoch s o).1.pools.length = s.pools.length := by
  unfold Queue.get_epoch
  cases hthis : s.this_epoch with
  | some e => rfl
  | none =>
    rcases hrec : PendingEpochs.recycle s.pending_epochs s.pools o.recycleO
      with ⟨⟨pending2, pools2⟩, w, r⟩
    have hlen := (recycle_spec s.pending_epochs s.pools o.recycleO).1
    rw [hrec] at hlen
    cases r with
    | ok oe => cases oe <;> cases o.newFenceRes <;> simp_all [map_oom]
    | err e => simp_all
    | abort => simp_all

theorem get_epoch_count (s : QueueState) (o : GetEpochOracle)
    (h : epochCount s ≤ MAX_EPOCHS) :
    epochCount (Queue.get_epoch s o).1 ≤ MAX_EPOCHS := by
  unfold Queue.get_epoch
  cases hthis : s.this_epoch with
  | some e => simpa [hthis] using h
  | none =>
    have hcount : s.pending_epochs.length ≤ MAX_EPOCHS := by
      simpa [epochCount, openCount, hthis] using h
    rcases hrec : PendingEpochs.recycle s.pending_epochs s.pools o.recycleO
      with ⟨⟨pending2, pools2⟩, w, r⟩
    have hilen := (recycle_spec s.pending_epochs s.pools o.recycleO).2
    rw [hrec] at hilen
    cases r with
    | ok oe =>
      cases oe with
      | some e2 =>
        simp only at hilen
        simp [epochCount, openCount]
        omega
      | none =>
        have hlt := (recycle_ok_none s.pending_epochs s.pools o.recycleO
          (by rw [hrec])).2
        cases o.newFenceRes <;>
          simp_all [map_oom, epochCount, openCount] <;> omega
    | err e2 =>
      cases e2 <;> simp_all [epochCount, openCount]
    | abort => simp_all [epochCount, openCount]

theorem SameCore.refl (s : QueueState) : SameCore s s :=
  ⟨rfl, rfl, rfl, rfl, rfl, rfl, rfl⟩

theorem SameCore.trans {s t u : QueueState} (h1 : SameCore s t) (h2 : SameCore t u) :
    SameCore s u := by
  obtain ⟨a1, b1, c1, d1, e1, f1, g1⟩ := h1
  obtain ⟨a2, b2, c2, d2, e2, f2, g2⟩ := h2
  exact ⟨a2.trans a1, b2.trans b1, c2.trans c1, d2.trans d1, e2.trans e1,
    f2.trans f1, g2.trans g1⟩

theorem stage_frame_core (s : QueueState) (f : QFrame) :
    SameCore s (Queue.stage_frame s f) := by
  unfold Queue.stage_frame
  split <;> exact ⟨rfl, rfl, rfl, rfl, rfl, rfl, rfl⟩

theorem foldl_core {α : Type} {f : QueueState → α → QueueState}
    (hf : ∀ s a, SameCore s (f s a)) :
    ∀ (l : List α) (s : QueueState), SameCore s (l.foldl f s) := by
  intro l
  induction l with
  | nil => intro s; exact SameCore.refl s
  | cons a rest ih =>
    intro s
    exact SameCore.trans (hf s a) (ih (f s a))

theorem stage_cbuf_core (s : QueueState) (c : CommandBuffer) :
    SameCore s (Queue.stage_cbuf s c) :=
  foldl_core stage_frame_core c.present s

theorem submit_collect_core (s : QueueState) (cbufs : List CommandBuffer) :
    SameCore s (Queue.submit_collect s cbufs) :=
  foldl_core stage_cbuf_core cbufs s

theorem submit_truncate_core (s : QueueState) (a b c d : Nat) :
    SameCore s (Queue.submit_truncate s a b c d) :=
  ⟨rfl, rfl, rfl, rfl, rfl, rfl, rfl⟩

theorem clear_present_core (s : QueueState) : SameCore s (Queue.clear_present s) :=
  ⟨rfl, rfl, rfl, rfl, rfl, rfl, rfl⟩

theorem SameCore.epochCount {s t : QueueState} (h : SameCore s t) :
    Mev.epochCount t = Mev.epochCount s := by
  simp [Mev.epochCount, openCount, h.2.2.1, h.2.2.2.1]

theorem drop_one_fields (s : QueueState) (c : CommandBuffer) :
    (Queue.drop_one s c).this_epoch = s.this_epoch ∧
    (Queue.drop_one s c).pending_epochs = s.pending_epochs ∧
    (Queue.drop_one s c).pools.length = s.pools.length ∧
    (Queue.drop_one s c).next_fence = s.next_fence :=
  ⟨rfl, rfl, deallocate_cbuf_length .. , rfl⟩

theorem drop_cbufs_fields :
    ∀ (cbufs : List CommandBuffer) (s : QueueState),
    (Queue.drop_command_buffer s cbufs).this_epoch = s.this_epoch ∧
    (Queue.drop_command_buffer s cbufs).pending_epochs = s.pending_epochs ∧
    (Queue.drop_command_buffer s cbufs).pools.length = s.pools.length ∧
    (Queue.drop_command_buffer s cbufs).next_fence = s.next_fence := by
  intro cbufs
  induction cbufs with
  | nil => intro s; exact ⟨rfl, rfl, rfl, rfl⟩
  | cons c rest ih =>
    intro s
    obtain ⟨a1, b1, c1, d1⟩ := drop_one_fields s c
    obtain ⟨a2, b2, c2, d2⟩ := ih (Queue.drop_one s c)
    unfold Queue.drop_command_buffer at a2 b2 c2 d2 ⊢
    rw [List.foldl_cons]
    exact ⟨a2.trans a1, b2.trans b1, c2.trans c1, d2.trans d1⟩

theorem next_epoch_count (s : QueueState) :
    epochCount (Queue.next_epoch s) = epochCount s := by
  cases hthis : s.this_epoch <;>
    simp [Queue.next_epoch, hthis, epochCount, openCount]

theorem next_epoch_pools (s : QueueState) :
    (Queue.next_epoch s).pools = s.pools := by
  cases hthis : s.this_epoch <;> simp [Queue.next_epoch, hthis]

theorem epochCount_eq_of {s t : QueueState} (h1 : t.this_epoch = s.this_epoch)
    (h2 : t.pending_epochs = s.pending_epochs) : epochCount t = epochCount s := by
  simp [epochCount, openCount, h1, h2]

/-- `Queue::submit` preserves the epoch-count bound and never changes the
number of pools. -/
theorem submit_preserves (s : QueueState) (cbufs : List CommandBuffer) (cp : Bool)
    (o : SubmitOracle) (h : epochCount s ≤ MAX_EPOCHS) :
    epochCount (Queue.submit s cbufs cp o).1 ≤ MAX_EPOCHS ∧
    (Queue.submit s cbufs cp o).1.pools.length = s.pools.length := by
  rcases hge : Queue.get_epoch s o.epochO with ⟨s1, r1⟩
  have hc1 : epochCount s1 ≤ MAX_EPOCHS := by
    have hx := get_epoch_count s o.epochO h
    rw [hge] at hx
    exact hx
  have hp1 : s1.pools.length = s.pools.length := by
    have hx := get_epoch_pools_length s o.epochO
    rw [hge] at hx
    exact hx
  have hcol := submit_collect_core s1 cbufs
  have hc2 : epochCount (Queue.submit_collect s1 cbufs) ≤ MAX_EPOCHS := by
    rw [hcol.epochCount]; exact hc1
  have hp2 : (Queue.submit_collect s1 cbufs).pools.length = s.pools.length := by
    rw [hcol.1]; exact hp1
  cases r1 with
  | abort =>
    simp only [Queue.submit, hge]
    exact ⟨hc1, hp1⟩
  | err e =>
    cases e with
    | outOfMemory =>
      simp only [Queue.submit, hge]
      obtain ⟨hd1, hd2, hd3, _⟩ := drop_cbufs_fields cbufs s1
      exact ⟨by rw [epochCount_eq_of hd1 hd2]; exact hc1, by rw [hd3]; exact hp1⟩
    | deviceLost =>
      simp only [Queue.submit, hge]
      exact ⟨hc1, hp1⟩
  | ok u =>
    cases u
    simp only [Queue.submit, hge]
    cases hs : o.submitRes with
    | errOutOfHostMemory =>
      have htr := submit_truncate_core (Queue.submit_collect s1 cbufs)
        s.signal_semaphores.length s.present_semaphores.length
        s.present_swapchains.length s.present_indices.length
      exact ⟨by rw [htr.epochCount]; exact hc2, by rw [htr.1]; exact hp2⟩
    | errOutOfDeviceMemory =>
      have htr := submit_truncate_core (Queue.submit_collect s1 cbufs)
        s.signal_semaphores.length s.present_semaphores.length
        s.present_swapchains.length s.present_indices.length
      obtain ⟨hd1, hd2, hd3, _⟩ := drop_cbufs_fields cbufs
        (Queue.submit_truncate (Queue.submit_collect s1 cbufs)
          s.signal_semaphores.length s.present_semaphores.length
          s.present_swapchains.length s.present_indices.length)
      constructor
      · rw [epochCount_eq_of hd1 hd2, htr.epochCount]
        exact hc2
      · rw [hd3, htr.1]
        exact hp2
    | errDeviceLost =>
      have htr := submit_truncate_core (Queue.submit_collect s1 cbufs)
        s.signal_semaphores.length s.present_semaphores.length
        s.present_swapchains.length s.present_indices.length
      exact ⟨by rw [htr.epochCount]; exact hc2, by rw [htr.1]; exact hp2⟩
    | success =>
      cases hthis : (Queue.submit_collect s1 cbufs).this_epoch with
      | none =>
        simp only [hthis]
        exact ⟨hc2, hp2⟩
      | some epoch =>
        simp only [hthis]
        have hcnt2 : (Queue.submit_collect s1 cbufs).pending_epochs.length + 1 ≤
            MAX_EPOCHS := by
          have hx : epochCount (Queue.submit_collect s1 cbufs) =
              (Queue.submit_collect s1 cbufs).pending_epochs.length + 1 := by
            simp [epochCount, openCount, hthis]
          omega
        split <;> split <;> try split
        all_goals refine ⟨?_, ?_⟩
        all_goals first
          | (try rw [(clear_present_core _).epochCount]
             try rw [next_epoch_count]
             simp [epochCount, openCount]
             omega)
          | (try rw [(clear_present_core _).1]
             try rw [next_epoch_pools]
             exact hp2)

theorem wait_idle_preserves (s : QueueState) (r : VkRes) :
    epochCount (Queue.wait_idle s r).1 = epochCount s ∧
    (Queue.wait_idle s r).1.pools.length = s.pools.length := by
  cases r <;> simp [Queue.wait_idle, epochCount, openCount]

theorem refresh_pools_length (pools : List Pool) (r : VkRes) :
    (Queue.refresh_pools pools r).1.length = pools.length := by
  unfold Queue.refresh_pools
  cases pools with
  | nil => rfl
  | cons front rest =>
    by_cases h : front.allocated = 0 <;>
      cases r <;> simp [h, map_oom]

theorem getLast?_none_eq_nil {α : Type} : ∀ (l : List α), l.getLast? = none → l = []
  | [], _ => rfl
  | [a], h => by simp [List.getLast?] at h
  | a :: b :: rest, h => by
    rw [List.getLast?_cons_cons] at h
    exact absurd (getLast?_none_eq_nil (b :: rest) h) (by simp)

theorem get_pool_length_le (pools : List Pool) (n : Nat) (r : VkRes)
    (h : pools.length ≤ MAX_POOLS) :
    (Queue.get_pool pools n r).1.1.length ≤ MAX_POOLS := by
  unfold Queue.get_pool
  cases hl : pools.getLast? with
  | none =>
    have hnil : pools = [] := getLast?_none_eq_nil pools hl
    subst hnil
    cases r <;> simp [map_oom, MAX_POOLS]
  | some b =>
    by_cases hm : pools.length < MAX_POOLS
    · by_cases ha : b.allocated = 0
      · simpa [hl, hm, ha] using h
      · cases r <;> simp [hl, hm, ha, map_oom] <;> omega
    · simpa [hl, hm] using h

theorem take_refs_fields (s : QueueState) :
    (Queue.take_refs s).this_epoch = s.this_epoch ∧
    (Queue.take_refs s).pending_epochs = s.pending_epochs ∧
    (Queue.take_refs s).pools = s.pools := by
  unfold Queue.take_refs
  cases hfr : s.free_refs.getLast? <;> exact ⟨rfl, rfl, rfl⟩

theorem dropLast_append_length {α : Type} (l : List α) (a : α) (h : l ≠ []) :
    (l.dropLast ++ [a]).length = l.length := by
  simp only [List.length_append, List.length_dropLast, List.length_cons,
    List.length_nil]
  have h1 : 1 ≤ l.length := by
    cases hp : l with
    | nil => exact absurd hp h
    | cons x rest => simp
  omega

theorem nce_alloc2_fields (s : QueueState) (back : Pool) (o : EncoderOracle)
    (hne : s.pools ≠ []) :
    (Queue.nce_alloc2 s back o).1.this_epoch = s.this_epoch ∧
    (Queue.nce_alloc2 s back o).1.pending_epochs = s.pending_epochs ∧
    (Queue.nce_alloc2 s back o).1.pools.length = s.pools.length := by
  unfold Queue.nce_alloc2
  rcases halloc : Pool.allocate back s.next_cbuf o with ⟨⟨back2, nc⟩, r3⟩
  cases r3 with
  | err e => exact ⟨rfl, rfl, dropLast_append_length s.pools back2 hne⟩
  | abort => exact ⟨rfl, rfl, dropLast_append_length s.pools back2 hne⟩
  | ok cbuf =>
    obtain ⟨h1, h2, h3⟩ := take_refs_fields
      { s with pools := s.pools.dropLast ++ [back2], next_cbuf := nc }
    refine ⟨h1, h2, ?_⟩
    rw [h3]
    exact dropLast_append_length s.pools back2 hne

/-- `Queue::nce_alloc` never touches the epochs and keeps the pool count. -/
theorem nce_alloc_fields (s : QueueState) (o : EncoderOracle) :
    (Queue.nce_alloc s o).1.this_epoch = s.this_epoch ∧
    (Queue.nce_alloc s o).1.pending_epochs = s.pending_epochs ∧
    (Queue.nce_alloc s o).1.pools.length = s.pools.length := by
  unfold Queue.nce_alloc
  cases hl : s.pools.getLast? with
  | none => exact ⟨rfl, rfl, rfl⟩
  | some back =>
    have hne : s.pools ≠ [] := by
      intro hx
      rw [hx] at hl
      simp [List.getLast?] at hl
    exact nce_alloc2_fields s back o hne

theorem nce_pool_fields (s : QueueState) (o : EncoderOracle) :
    (Queue.nce_pool s o).1.this_epoch = s.this_epoch ∧
    (Queue.nce_pool s o).1.pending_epochs = s.pending_epochs ∧
    (s.pools.length ≤ MAX_POOLS → (Queue.nce_pool s o).1.pools.length ≤ MAX_POOLS) := by
  unfold Queue.nce_pool
  rcases hgp : Queue.get_pool s.pools s.next_pool o.createPoolRes
    with ⟨⟨pools2, np⟩, r2⟩
  have hp2 : s.pools.length ≤ MAX_POOLS → pools2.length ≤ MAX_POOLS := by
    intro h
    have hx := get_pool_length_le s.pools s.next_pool o.createPoolRes h
    rw [hgp] at hx
    exact hx
  cases r2 with
  | err e => exact ⟨rfl, rfl, hp2⟩
  | abort => exact ⟨rfl, rfl, hp2⟩
  | ok u2 =>
    obtain ⟨h1, h2, h3⟩ := nce_alloc_fields
      { s with pools := pools2, next_pool := np } o
    exact ⟨h1, h2, fun h => by rw [h3]; exact hp2 h⟩

/-- `Queue::new_command_encoder` never touches the epochs and keeps the pool
count within the bound. -/
theorem new_command_encoder_fields (s : QueueState) (o : EncoderOracle) :
    (Queue.new_command_encoder s o).1.this_epoch = s.this_epoch ∧
    (Queue.new_command_encoder s o).1.pending_epochs = s.pending_epochs ∧
    (s.pools.length ≤ MAX_POOLS →
      (Queue.new_command_encoder s o).1.pools.length ≤ MAX_POOLS) := by
  unfold Queue.new_command_encoder
  rcases hrf : Queue.refresh_pools s.pools o.resetPoolRes with ⟨pools1, r1⟩
  have hp1 : s.pools.length ≤ MAX_POOLS → pools1.length ≤ MAX_POOLS := by
    intro h
    have hx := refresh_pools_length s.pools o.resetPoolRes
    rw [hrf] at hx
    rw [hx]
    exact h
  cases r1 with
  | err e => exact ⟨rfl, rfl, hp1⟩
  | abort => exact ⟨rfl, rfl, hp1⟩
  | ok u =>
    obtain ⟨h1, h2, h3⟩ := nce_pool_fields { s with pools := pools1 } o
    exact ⟨h1, h2, fun h => h3 (hp1 h)⟩

theorem step_inv (s : QueueState) (op : QueueOp) (h : QueueInv s) :
    QueueInv (Queue.step s op) := by
  cases op with
  | newCommandEncoder o =>
    obtain ⟨h1, h2, h3⟩ := new_command_encoder_fields s o
    exact ⟨by rw [Queue.step, epochCount_eq_of h1 h2]; exact h.1, h3 h.2⟩
  | submit cbufs cp o =>
    obtain ⟨h1, h2⟩ := submit_preserves s cbufs cp o h.1
    exact ⟨h1, by rw [Queue.step, h2]; exact h.2⟩
  | waitIdle r =>
    obtain ⟨h1, h2⟩ := wait_idle_preserves s r
    exact ⟨by rw [Queue.step, h1]; exact h.1, by rw [Queue.step, h2]; exact h.2⟩

theorem run_inv (ops : List QueueOp) : QueueInv (Queue.run ops) := by
  have haux : ∀ (l : List QueueOp) (s : QueueState), QueueInv s →
      QueueInv (l.foldl Queue.step s) := by
    intro l
    induction l with
    | nil => intro s hs; exact hs
    | cons op rest ih =>
      intro s hs
      exact ih (Queue.step s op) (step_inv s op hs)
  exact haux ops Queue.initial ⟨by decide, by decide⟩

theorem drop_free_refs :
    ∀ (cbufs : List CommandBuffer) (s : QueueState),
    (Queue.drop_command_buffer s cbufs).free_refs =
      s.free_refs ++ cbufs.map (fun c => c.refs.clear) := by
  intro cbufs
  induction cbufs with
  | nil => intro s; simp [Queue.drop_command_buffer]
  | cons c rest ih =>
    intro s
    unfold Queue.drop_command_buffer at ih ⊢
    rw [List.foldl_cons, ih]
    simp [Queue.drop_one]

theorem drop_pools :
    ∀ (cbufs : List CommandBuffer) (s : QueueState),
    (Queue.drop_command_buffer s cbufs).pools =
      cbufs.foldl (fun ps c => deallocate_cbuf c.handle c.pool ps) s.pools := by
  intro cbufs
  induction cbufs with
  | nil => intro s; simp [Queue.drop_command_buffer]
  | cons c rest ih =>
    intro s
    unfold Queue.drop_command_buffer at ih ⊢
    rw [List.foldl_cons, ih]
    rfl

theorem deallocate_mem_new (c p : Handle) :
    ∀ ps : List Pool, (∃ q ∈ ps, q.pool = p) →
    ∃ q ∈ deallocate_cbuf c p ps, q.pool = p ∧ c ∈ q.free_cbufs := by
  intro ps
  induction ps with
  | nil => rintro ⟨q, hq, _⟩; exact absurd hq (List.not_mem_nil q)
  | cons q0 qs ih =>
    rintro ⟨q, hq, hqp⟩
    by_cases hh : q0.pool = p
    · refine ⟨{ q0 with free_cbufs := q0.free_cbufs ++ [c], allocated := q0.allocated - 1 }, ?_, hh, by simp⟩
      simp [deallocate_cbuf, hh]
    · rcases List.mem_cons.mp hq with hq | hq
      · exact absurd (hq ▸ hqp) hh
      · obtain ⟨q2, hq2, hq2p, hq2c⟩ := ih ⟨q, hq, hqp⟩
        exact ⟨q2, by simp [deallocate_cbuf, hh, hq2], hq2p, hq2c⟩

theorem deallocate_mem_old (c p : Handle) (P x : Handle) :
    ∀ ps : List Pool, (∃ q ∈ ps, q.pool = P ∧ x ∈ q.free_cbufs) →
    ∃ q ∈ deallocate_cbuf c p ps, q.pool = P ∧ x ∈ q.free_cbufs := by
  intro ps
  induction ps with
  | nil => rintro ⟨q, hq, _⟩; exact absurd hq (List.not_mem_nil q)
  | cons q0 qs ih =>
    rintro ⟨q, hq, hqp, hqc⟩
    by_cases hh : q0.pool = p
    · rcases List.mem_cons.mp hq with hq | hq
      · subst hq
        refine ⟨{ q with free_cbufs := q.free_cbufs ++ [c], allocated := q.allocated - 1 }, ?_, hqp, by simp [hqc]⟩
        simp [deallocate_cbuf, hh]
      · exact ⟨q, by simp [deallocate_cbuf, hh, hq], hqp, hqc⟩
    · rcases List.mem_cons.mp hq with hq | hq
      · subst hq
        exact ⟨q, by simp [deallocate_cbuf, hh], hqp, hqc⟩
      · obtain ⟨q2, hq2, hq2p, hq2c⟩ := ih ⟨q, hq, hqp, hqc⟩
        exact ⟨q2, by simp [deallocate_cbuf, hh, hq2], hq2p, hq2c⟩

theorem deallocate_pool_id (c p : Handle) (P : Handle) :
    ∀ ps : List Pool, (∃ q ∈ ps, q.pool = P) →
    ∃ q ∈ deallocate_cbuf c p ps, q.pool = P := by
  intro ps
  induction ps with
  | nil => rintro ⟨q, hq, _⟩; exact absurd hq (List.not_mem_nil q)
  | cons q0 qs ih =>
    rintro ⟨q, hq, hqp⟩
    by_cases hh : q0.pool = p
    · rcases List.mem_cons.mp hq with hq | hq
      · subst hq
        refine ⟨{ q with free_cbufs := q.free_cbufs ++ [c], allocated := q.allocated - 1 }, ?_, hqp⟩
        simp [deallocate_cbuf, hh]
      · exact ⟨q, by simp [deallocate_cbuf, hh, hq], hqp⟩
    · rcases List.mem_cons.mp hq with hq | hq
      · subst hq
        exact ⟨q, by simp [deallocate_cbuf, hh], hqp⟩
      · obtain ⟨q2, hq2, hq2p⟩ := ih ⟨q, hq, hqp⟩
        exact ⟨q2, by simp [deallocate_cbuf, hh, hq2], hq2p⟩

theorem drop_fold_mem_old (P x : Handle) :
    ∀ (cbufs : List CommandBuffer) (ps : List Pool),
    (∃ q ∈ ps, q.pool = P ∧ x ∈ q.free_cbufs) →
    ∃ q ∈ cbufs.foldl (fun ps c => deallocate_cbuf c.handle c.pool ps) ps,
      q.pool = P ∧ x ∈ q.free_cbufs := by
  intro cbufs
  induction cbufs with
  | nil => intro ps h; simpa using h
  | cons c rest ih =>
    intro ps h
    rw [List.foldl_cons]
    exact ih _ (deallocate_mem_old c.handle c.pool P x ps h)

theorem drop_fold_pool_id (P : Handle) :
    ∀ (cbufs : List CommandBuffer) (ps : List Pool),
    (∃ q ∈ ps, q.pool = P) →
    ∃ q ∈ cbufs.foldl (fun ps c => deallocate_cbuf c.handle c.pool ps) ps,
      q.pool = P := by
  intro cbufs
  induction cbufs with
  | nil => intro ps h; simpa using h
  | cons c rest ih =>
    intro ps h
    rw [List.foldl_cons]
    exact ih _ (deallocate_pool_id c.handle c.pool P ps h)

/-- Every dropped command buffer ends up in the free list of its owning
pool. -/
theorem drop_fold_mem :
    ∀ (cbufs : List CommandBuffer) (ps : List Pool),
    (∀ c ∈ cbufs, ∃ q ∈ ps, q.pool = c.pool) →
    ∀ c ∈ cbufs,
      ∃ q ∈ cbufs.foldl (fun ps c => deallocate_cbuf c.handle c.pool ps) ps,
        q.pool = c.pool ∧ c.handle ∈ q.free_cbufs := by
  intro cbufs
  induction cbufs with
  | nil => intro ps _ c hc; exact absurd hc (List.not_mem_nil c)
  | cons c0 rest ih =>
    intro ps hall c hc
    rw [List.foldl_cons]
    rcases List.mem_cons.mp hc with hc | hc
    · subst hc
      exact drop_fold_mem_old c.pool c.handle rest _
        (deallocate_mem_new c.handle c.pool ps (hall c (by simp)))
    · refine ih _ ?_ c hc
      intro c2 hc2
      exact deallocate_pool_id c0.handle c0.pool c2.pool ps
        (hall c2 (List.mem_cons_of_mem c0 hc2))

/-- A single dropped command buffer ends up in the free list of its owning
pool, whatever else is dropped alongside it. -/
theorem fold_mem_single :
    ∀ (cbufs : List CommandBuffer) (ps : List Pool) (c : CommandBuffer),
    c ∈ cbufs → (∃ q ∈ ps, q.pool = c.pool) →
    ∃ q ∈ cbufs.foldl (fun ps c => deallocate_cbuf c.handle c.pool ps) ps,
      q.pool = c.pool ∧ c.handle ∈ q.free_cbufs := by
  intro cbufs
  induction cbufs with
  | nil => intro ps c hc _; exact absurd hc (List.not_mem_nil c)
  | cons c0 rest ih =>
    intro ps c hc hex
    rw [List.foldl_cons]
    rcases List.mem_cons.mp hc with hc | hc
    · subst hc
      exact drop_fold_mem_old c.pool c.handle rest _
        (deallocate_mem_new c.handle c.pool ps hex)
    · exact ih _ c hc (deallocate_pool_id c0.handle c0.pool c.pool ps hex)

/-- When three epochs are pending and none is open, `get_epoch` never creates
a new epoch (the fence counter is untouched): it recycles instead. -/
theorem get_epoch_no_new (s : QueueState) (o : GetEpochOracle)
    (h1 : s.this_epoch = none) (h2 : ¬ s.pending_epochs.length < MAX_EPOCHS) :
    (Queue.get_epoch s o).1.next_fence = s.next_fence := by
  unfold Queue.get_epoch
  rw [h1]
  rcases hrec : PendingEpochs.recycle s.pending_epochs s.pools o.recycleO
    with ⟨⟨pending2, pools2⟩, w, r⟩
  cases r with
  | ok oe =>
    cases oe with
    | some e2 => rfl
    | none =>
      exact absurd (recycle_ok_none s.pending_epochs s.pools o.recycleO
        (by rw [hrec])).2 h2
  | err e2 => rfl
  | abort => rfl

/-! ## Further pool lemmas for the creation condition -/

/-- Shape of the pool deque after a successful `refresh_pools`: it is empty,
or its front has outstanding buffers (nothing was moved), or an empty pool
was just moved to the back. -/
theorem refresh_ok_shape (pools pools2 : List Pool) (rr : VkRes)
    (h : Queue.refresh_pools pools rr = (pools2, .ok ())) :
    pools2 = [] ∨ (∃ f rs, pools2 = f :: rs ∧ f.allocated ≠ 0) ∨
    (∃ f rs, pools2 = rs ++ [f] ∧ f.allocated = 0) := by
  unfold Queue.refresh_pools at h
  cases pools with
  | nil =>
    simp only at h
    cases h
    exact Or.inl rfl
  | cons front rest =>
    by_cases ha : front.allocated = 0
    · simp only [ha, if_true] at h
      cases rr <;> simp [map_oom] at h
      exact Or.inr (Or.inr ⟨front, rest, h.symm, ha⟩)
    · simp only [ha, if_false] at h
      cases h
      exact Or.inr (Or.inl ⟨front, rest, rfl, ha⟩)

/-- If `get_pool` grew the pool deque, the count was below the bound and the
back pool (when one existed) had outstanding buffers. -/
theorem get_pool_grow (pools : List Pool) (n : Nat) (cr : VkRes)
    (h : pools.length < (Queue.get_pool pools n cr).1.1.length) :
    pools.length < MAX_POOLS ∧
    (pools = [] ∨ ∃ b, pools.getLast? = some b ∧ b.allocated ≠ 0) := by
  unfold Queue.get_pool at h
  cases hl : pools.getLast? with
  | none =>
    have hnil : pools = [] := getLast?_none_eq_nil pools hl
    subst hnil
    exact ⟨by decide, Or.inl rfl⟩
  | some b =>
    rw [hl] at h
    by_cases hm : pools.length < MAX_POOLS
    · by_cases ha : b.allocated = 0
      · simp [hm, ha] at h
      · exact ⟨hm, Or.inr ⟨b, rfl, ha⟩⟩
    · simp [hm] at h

/-! ## Claim theorems: queue epochs and pools -/

/-- C1: over every sequence of queue operations the pending queue holds at
most three epochs and at most one further epoch is open (so at most four
epochs are owned); when a new epoch is needed while three are pending,
`recycle` blocks on the oldest pending epoch's fence and on success reuses
exactly that epoch, leaving the rest in FIFO order, and `get_epoch` creates
no new epoch in that situation. -/
theorem C1_epoch_bound :
    (∀ ops : List QueueOp,
      (Queue.run ops).pending_epochs.length ≤ MAX_EPOCHS ∧
      (if (Queue.run ops).this_epoch.isSome then 1 else 0) ≤ 1 ∧
      epochCount (Queue.run ops) ≤ MAX_EPOCHS + 1) ∧
    (∀ (front : Epoch) (rest : List Epoch) (pools : List Pool) (o : RecycleOracle),
      ¬ (front :: rest).length < MAX_EPOCHS →
      (PendingEpochs.recycle (front :: rest) pools o).2.1 = some front.fence) ∧
    (∀ (front : Epoch) (rest : List Epoch) (pools : List Pool),
      ¬ (front :: rest).length < MAX_EPOCHS →
      PendingEpochs.recycle (front :: rest) pools ⟨.success, .success⟩ =
        ((rest,
          front.cbufs.foldl (fun ps cp => deallocate_cbuf cp.1 cp.2 ps) pools),
          some front.fence,
          .ok (some { fence := front.fence, refs := front.refs.map Refs.clear,
                      cbufs := [] }))) ∧
    (∀ (s : QueueState) (o : GetEpochOracle), s.this_epoch = none →
      ¬ s.pending_epochs.length < MAX_EPOCHS →
      (Queue.get_epoch s o).1.next_fence = s.next_fence) := by
  refine ⟨?_, recycle_ge_waits_front, recycle_ge_success, get_epoch_no_new⟩
  intro ops
  obtain ⟨h1, h2⟩ := run_inv ops
  refine ⟨?_, ?_, ?_⟩
  · have : epochCount (Queue.run ops) =
        (Queue.run ops).pending_epochs.length + openCount (Queue.run ops) := rfl
    have ho : openCount (Queue.run ops) ≤ 1 := by
      unfold openCount
      split <;> omega
    omega
  · split <;> omega
  · omega

/-- Witness for C1 at concrete inputs: four checkpointed submissions keep at
most three pending epochs, and a full pending queue recycles its front. -/
theorem C1_epoch_bound_witness :
    (Queue.run [exCpSubmit, exCpSubmit, exCpSubmit, exCpSubmit]).pending_epochs.length ≤
      MAX_EPOCHS ∧
    (PendingEpochs.recycle [exEp 11, exEp 12, exEp 13] [] ⟨.success, .success⟩).2.1 =
      some 11 := by
  constructor
  · exact (C1_epoch_bound.1 [exCpSubmit, exCpSubmit, exCpSubmit, exCpSubmit]).1
  · have h := C1_epoch_bound.2.1 (exEp 11) [exEp 12, exEp 13] [] ⟨.success, .success⟩
      (by decide)
    exact h

/-- C4: when the native queue-submit reports out-of-device-memory, `submit`
returns `DeviceError::OutOfMemory`, every accumulated command buffer goes
back to the free list of its owning pool, its reference set is cleared and
retained in `free_refs`, and nothing joins the current epoch (open epoch and
pending queue are exactly as `get_epoch` left them). -/
theorem C4_submit_device_oom (s : QueueState) (cbufs : List CommandBuffer)
    (cp : Bool) (o : SubmitOracle) (s1 : QueueState)
    (hok : Queue.get_epoch s o.epochO = (s1, .ok ()))
    (hoom : o.submitRes = .errOutOfDeviceMemory) :
    (Queue.submit s cbufs cp o).2 = .err .outOfMemory ∧
    (Queue.submit s cbufs cp o).1.this_epoch = s1.this_epoch ∧
    (Queue.submit s cbufs cp o).1.pending_epochs = s1.pending_epochs ∧
    (Queue.submit s cbufs cp o).1.free_refs =
      s1.free_refs ++ cbufs.map (fun c => c.refs.clear) ∧
    (Queue.submit s cbufs cp o).1.pools =
      cbufs.foldl (fun ps c => deallocate_cbuf c.handle c.pool ps) s1.pools ∧
    (∀ c ∈ cbufs, (∃ q ∈ s1.pools, q.pool = c.pool) →
      ∃ q ∈ (Queue.submit s cbufs cp o).1.pools,
        q.pool = c.pool ∧ c.handle ∈ q.free_cbufs) := by
  have hcol := submit_collect_core s1 cbufs
  have htr := submit_truncate_core (Queue.submit_collect s1 cbufs)
    s.signal_semaphores.length s.present_semaphores.length
    s.present_swapchains.length s.present_indices.length
  have hsub : Queue.submit s cbufs cp o =
      (Queue.drop_command_buffer
        (Queue.submit_truncate (Queue.submit_collect s1 cbufs)
          s.signal_semaphores.length s.present_semaphores.length
          s.present_swapchains.length s.present_indices.length) cbufs,
        .err .outOfMemory) := by
    simp only [Queue.submit, hok, hoom]
  rw [hsub]
  obtain ⟨hd1, hd2, _, _⟩ := drop_cbufs_fields cbufs
    (Queue.submit_truncate (Queue.submit_collect s1 cbufs)
      s.signal_semaphores.length s.present_semaphores.length
      s.present_swapchains.length s.present_indices.length)
  refine ⟨rfl, ?_, ?_, ?_, ?_, ?_⟩
  · rw [hd1, htr.2.2.1, hcol.2.2.1]
  · rw [hd2, htr.2.2.2.1, hcol.2.2.2.1]
  · rw [drop_free_refs, htr.2.1, hcol.2.1]
  · rw [drop_pools, htr.1, hcol.1]
  · intro c hc hex
    rw [drop_pools, htr.1, hcol.1]
    exact fold_mem_single cbufs s1.pools c hc hex

/-- Witness for C4 at concrete inputs: a device-OOM submit returns the
command buffer to its pool's free list and reports `OutOfMemory`. -/
theorem C4_submit_device_oom_witness :
    (Queue.submit exSt [exCb] true exOomSubmit).2 = .err .outOfMemory ∧
    ∃ q ∈ (Queue.submit exSt [exCb] true exOomSubmit).1.pools,
      q.pool = exCb.pool ∧ exCb.handle ∈ q.free_cbufs := by
  have hok : Queue.get_epoch exSt exOomSubmit.epochO = (exSt1, .ok ()) := by decide
  have h := C4_submit_device_oom exSt [exCb] true exOomSubmit exSt1 hok rfl
  refine ⟨h.1, ?_⟩
  exact h.2.2.2.2.2 exCb (by simp)
    ⟨{ free_cbufs := [], pool := 0, allocated := 1 }, by decide, by decide⟩

/-- C6: over every sequence of queue operations the pool count never exceeds
three; a least-recently-used pool with no outstanding buffers is reset and
moved to the most-recently-used position; a new pool is created only when the
count is below three and every existing pool has outstanding buffers,
otherwise the most-recently-used pool is reused regardless of fullness; and
allocation takes from the pool's free list when it is non-empty, performing a
native allocation only otherwise. -/
theorem C6_pool_management :
    (∀ ops : List QueueOp, (Queue.run ops).pools.length ≤ MAX_POOLS) ∧
    (∀ (front : Pool) (rest : List Pool), front.allocated = 0 →
      Queue.refresh_pools (front :: rest) .success = (rest ++ [front], .ok ())) ∧
    (∀ (front : Pool) (rest : List Pool) (r : VkRes), front.allocated ≠ 0 →
      Queue.refresh_pools (front :: rest) r = (front :: rest, .ok ())) ∧
    (∀ (pools pools2 : List Pool) (rr cr : VkRes) (n : Nat),
      Queue.refresh_pools pools rr = (pools2, .ok ()) →
      pools2.length < (Queue.get_pool pools2 n cr).1.1.length →
      pools2.length < MAX_POOLS ∧ ∀ p ∈ pools2, p.allocated ≠ 0) ∧
    (∀ (pools : List Pool) (n : Nat) (cr : VkRes) (b : Pool),
      pools.getLast? = some b →
      (¬ pools.length < MAX_POOLS ∨ b.allocated = 0) →
      Queue.get_pool pools n cr = ((pools, n), .ok ())) ∧
    (∀ (p : Pool) (nc : Nat) (o : EncoderOracle) (c : Handle),
      p.free_cbufs.getLast? = some c →
      (Pool.allocate p nc o).1.2 = nc ∧
      ∀ h2, (Pool.allocate p nc o).2 = .ok h2 → h2 = c) ∧
    (∀ (p : Pool) (nc : Nat) (o : EncoderOracle),
      p.free_cbufs = [] → o.allocRes = .success → o.beginRes = .success →
      Pool.allocate p nc o =
        (({ p with allocated := p.allocated + 1 }, nc + 1), .ok nc)) := by
  refine ⟨?_, ?_, ?_, ?_, ?_, ?_, ?_⟩
  · intro ops
    exact (run_inv ops).2
  · intro front rest ha
    simp [Queue.refresh_pools, ha, map_oom]
  · intro front rest r ha
    simp [Queue.refresh_pools, ha]
  · intro pools pools2 rr cr n hrf hgrow
    obtain ⟨hm, hdisj⟩ := get_pool_grow pools2 n cr hgrow
    refine ⟨hm, ?_⟩
    intro p hp
    rcases hdisj with hnil | ⟨b, hb, hba⟩
    · subst hnil
      exact absurd hp (List.not_mem_nil p)
    · rcases refresh_ok_shape pools pools2 rr hrf with hsh | ⟨f, rs, hsh, hf⟩ | ⟨f, rs, hsh, hf⟩
      · subst hsh
        exact absurd hp (List.not_mem_nil p)
      · subst hsh
        have hlen : (f :: rs).length ≤ 2 := by
          have : MAX_POOLS = 3 := rfl
          omega
        cases rs with
        | nil =>
          have hpb : p = f := by simpa using hp
          simp [List.getLast?] at hb
          subst hpb
          exact hf
        | cons g tl =>
          cases tl with
          | nil =>
            have hbg : b = g := by
              simp [List.getLast?_cons_cons, List.getLast?] at hb
              exact hb.symm
            subst hbg
            rcases List.mem_cons.mp hp with hp | hp
            · subst hp; exact hf
            · have hpg : p = b := by simpa using hp
              subst hpg; exact hba
          | cons x tl2 => simp at hlen
      · subst hsh
        have hbf : b = f := by
          rw [List.getLast?_concat] at hb
          cases hb
          rfl
        subst hbf
        exact absurd hf hba
  · intro pools n cr b hl hcond
    rcases hcond with hc | hc
    · simp [Queue.get_pool, hl, hc]
    · simp [Queue.get_pool, hl, hc]
  · intro p nc o c hl
    unfold Pool.allocate
    rw [hl]
    cases hb : o.beginRes <;> simp [map_oom]
  · intro p nc o hfc ha hb
    unfold Pool.allocate
    rw [hfc]
    simp [List.getLast?, ha, hb, map_oom]

/-- Witness for C6 at concrete inputs: five encoder requests stay within
three pools, an idle LRU pool is rotated to the back, and a non-empty free
list satisfies the allocation without a native call. -/
theorem C6_pool_management_witness :
    (Queue.run [exEncOp, exEncOp, exEncOp, exEncOp, exEncOp]).pools.length ≤
      MAX_POOLS ∧
    Queue.refresh_pools [{ free_cbufs := [7], pool := 4, allocated := 0 }] .success =
      ([{ free_cbufs := [7], pool := 4, allocated := 0 }], .ok ()) ∧
    (Pool.allocate { free_cbufs := [7], pool := 4, allocated := 0 } 9
      ⟨.success, .success, .success, .success⟩).1.2 = 9 := by
  refine ⟨C6_pool_management.1 [exEncOp, exEncOp, exEncOp, exEncOp, exEncOp], ?_, ?_⟩
  · have h := C6_pool_management.2.1 { free_cbufs := [7], pool := 4, allocated := 0 }
      [] rfl
    exact h
  · exact (C6_pool_management.2.2.2.2.2.1 { free_cbufs := [7], pool := 4, allocated := 0 }
      9 ⟨.success, .success, .success, .success⟩ 7 rfl).1

/-- C7 counterexample: on out-of-host-memory from the native submit, the
command buffer is NOT returned to its pool's free list, its reference set is
not retained, and no error value is returned to the caller — the process is
aborted (`handle_host_oom`).  The claim "returned to their owning pools ...
and the error is surfaced" is therefore false at this input. -/
theorem C7_counterexample :
    (Queue.submit exSt [exCb] true exHostSubmit).2 = .abort ∧
    (Queue.submit exSt [exCb] true exHostSubmit).1.pools =
      [{ free_cbufs := [], pool := 0, allocated := 1 }] ∧
    (Queue.submit exSt [exCb] true exHostSubmit).1.free_refs = [] := by
  decide

/-- C7 (amended): when the native queue-submit reports out-of-host-memory,
the accumulated command buffers are dropped without being returned to their
pools and without retaining their reference sets, nothing joins the current
epoch, and no error is surfaced: the process aborts via `handle_host_oom`. -/
theorem C7_submit_host_oom_amended (s : QueueState) (cbufs : List CommandBuffer)
    (cp : Bool) (o : SubmitOracle) (s1 : QueueState)
    (hok : Queue.get_epoch s o.epochO = (s1, .ok ()))
    (hoom : o.submitRes = .errOutOfHostMemory) :
    (Queue.submit s cbufs cp o).2 = .abort ∧
    (Queue.submit s cbufs cp o).1.pools = s1.pools ∧
    (Queue.submit s cbufs cp o).1.free_refs = s1.free_refs ∧
    (Queue.submit s cbufs cp o).1.this_epoch = s1.this_epoch ∧
    (Queue.submit s cbufs cp o).1.pending_epochs = s1.pending_epochs := by
  have hcol := submit_collect_core s1 cbufs
  have htr := submit_truncate_core (Queue.submit_collect s1 cbufs)
    s.signal_semaphores.length s.present_semaphores.length
    s.present_swapchains.length s.present_indices.length
  have hsub : Queue.submit s cbufs cp o =
      (Queue.submit_truncate (Queue.submit_collect s1 cbufs)
        s.signal_semaphores.length s.present_semaphores.length
        s.present_swapchains.length s.present_indices.length,
        .abort) := by
    simp only [Queue.submit, hok, hoom]
  rw [hsub]
  exact ⟨rfl, htr.1.trans hcol.1, (htr.2.1).trans hcol.2.1,
    (htr.2.2.1).trans hcol.2.2.1, (htr.2.2.2.1).trans hcol.2.2.2.1⟩

/-- Witness for the amended C7 at concrete inputs. -/
theorem C7_submit_host_oom_amended_witness :
    (Queue.submit exSt [exCb] true exHostSubmit).2 = .abort ∧
    (Queue.submit exSt [exCb] true exHostSubmit).1.pools = exSt1.pools := by
  have hok : Queue.get_epoch exSt exHostSubmit.epochO = (exSt1, .ok ()) := by decide
  have h := C7_submit_host_oom_amended exSt [exCb] true exHostSubmit exSt1 hok rfl
  exact ⟨h.1, h.2.1⟩

/-! ## Lemmas about the surface model -/

theorem destroyEntry_fields (st : SurfaceState) (e : MaybeFakeSwapchain) :
    (destroyEntry st e).retired = st.retired ∧
    (destroyEntry st e).lost = st.lost ∧
    (destroyEntry st e).wait_idle_count = st.wait_idle_count ∧
    (destroyEntry st e).current = st.current ∧
    (destroyEntry st e).next_id = st.next_id ∧
    (destroyEntry st e).suboptimal_retire = st.suboptimal_retire ∧
    (destroyEntry st e).destroyed_swapchains =
      st.destroyed_swapchains ++ e.swapchainHandle.toList ∧
    (destroyEntry st e).destroyed_semaphores =
      st.destroyed_semaphores ++ entrySems e := by
  cases e <;>
    simp [destroyEntry, entrySems, MaybeFakeSwapchain.swapchainHandle]

theorem destroyFold_spec :
    ∀ (l : List MaybeFakeSwapchain) (st : SurfaceState),
    (destroyFold st l).retired = st.retired ∧
    (destroyFold st l).lost = st.lost ∧
    (destroyFold st l).wait_idle_count = st.wait_idle_count ∧
    (destroyFold st l).current = st.current ∧
    (destroyFold st l).next_id = st.next_id ∧
    (destroyFold st l).suboptimal_retire = st.suboptimal_retire ∧
    (destroyFold st l).destroyed_swapchains =
      st.destroyed_swapchains ++ realHandles l := by
  intro l
  induction l with
  | nil => intro st; simp [destroyFold, realHandles]
  | cons e rest ih =>
    intro st
    obtain ⟨f1, f2, f3, f4, f5, f6, f7, _⟩ := destroyEntry_fields st e
    obtain ⟨g1, g2, g3, g4, g5, g6, g7⟩ := ih (destroyEntry st e)
    unfold destroyFold at g1 g2 g3 g4 g5 g6 g7 ⊢
    rw [List.foldl_cons]
    refine ⟨g1.trans f1, g2.trans f2, g3.trans f3, g4.trans f4, g5.trans f5,
      g6.trans f6, ?_⟩
    rw [g7, f7]
    cases e <;> simp [realHandles, MaybeFakeSwapchain.swapchainHandle]

theorem clear_go_false_spec :
    ∀ (l : List MaybeFakeSwapchain) (st : SurfaceState) (wr : VkRes),
    Surface.clear_go st l false wr =
      ({ destroyFold st (l.takeWhile MaybeFakeSwapchain.can_destroy) with
          retired := l.dropWhile MaybeFakeSwapchain.can_destroy }, .ok ()) := by
  intro l
  induction l with
  | nil => intro st wr; simp [Surface.clear_go, destroyFold]
  | cons e rest ih =>
    intro st wr
    by_cases hd : e.can_destroy
    · rw [show Surface.clear_go st (e :: rest) false wr =
          Surface.clear_go (destroyEntry st e) rest false wr by
        simp [Surface.clear_go, hd]]
      rw [ih]
      have hretired := (destroyEntry_fields st e).1
      simp [List.takeWhile_cons, List.dropWhile_cons, hd, destroyFold]
    · simp only [List.takeWhile_cons, List.dropWhile_cons]
      rw [show (MaybeFakeSwapchain.can_destroy e) = false by simpa using hd]
      simp [Surface.clear_go, hd, destroyFold]

theorem clear_go_true_stuck (st : SurfaceState) (e : MaybeFakeSwapchain)
    (rest : List MaybeFakeSwapchain) (wr : VkRes) (h : ¬ e.can_destroy = true) :
    Surface.clear_go st (e :: rest) true wr =
      ({ st with retired := e :: rest }, .ok ()) := by
  simp [Surface.clear_go, h]

theorem clear_go_true_go (st : SurfaceState) (e : MaybeFakeSwapchain)
    (rest : List MaybeFakeSwapchain) (h : e.can_destroy = true) :
    Surface.clear_go st (e :: rest) true .success =
      Surface.clear_go
        { st with wait_idle_count := st.wait_idle_count + 1 }
        (e :: rest) false .success := by
  simp [Surface.clear_go, h]

/-- Successful blocking clear pass: the destroyable prefix is destroyed (one
idle-wait when it is non-empty), the rest stays retired in order. -/
theorem clear_retired_true_success_spec (st : SurfaceState) :
    (Surface.clear_retired st true .success).2 = .ok () ∧
    (Surface.clear_retired st true .success).1.retired =
      st.retired.dropWhile MaybeFakeSwapchain.can_destroy ∧
    (Surface.clear_retired st true .success).1.destroyed_swapchains =
      st.destroyed_swapchains ++
        realHandles (st.retired.takeWhile MaybeFakeSwapchain.can_destroy) ∧
    (Surface.clear_retired st true .success).1.wait_idle_count =
      st.wait_idle_count +
        (if st.retired.takeWhile MaybeFakeSwapchain.can_destroy = [] then 0 else 1) ∧
    (Surface.clear_retired st true .success).1.lost = st.lost ∧
    (Surface.clear_retired st true .success).1.current = st.current := by
  unfold Surface.clear_retired
  cases hr : st.retired with
  | nil => simp [Surface.clear_go, realHandles]
  | cons e rest =>
    by_cases hd : e.can_destroy
    · rw [clear_go_true_go _ e rest hd, clear_go_false_spec]
      obtain ⟨f1, f2, f3, f4, f5, f6, f7⟩ := destroyFold_spec
        ((e :: rest).takeWhile MaybeFakeSwapchain.can_destroy)
        { st with wait_idle_count := st.wait_idle_count + 1, retired := [] }
      refine ⟨rfl, rfl, ?_, ?_, ?_, ?_⟩
      · rw [f7]
      · rw [f3]
        simp [List.takeWhile_cons, hd]
      · rw [f2]
      · rw [f4]
    · rw [clear_go_true_stuck _ e rest _ hd]
      have hdf : MaybeFakeSwapchain.can_destroy e = false := by simpa using hd
      simp [List.takeWhile_cons, List.dropWhile_cons, hdf, realHandles]

/-- Destruction only ever happens to retired entries all of whose images are
detached: any newly destroyed swapchain handle or semaphore belonged to a
destroyable retired entry. -/
theorem clear_go_destroys_detached :
    ∀ (l : List MaybeFakeSwapchain) (st : SurfaceState) (dw : Bool) (wr : VkRes)
      (h : Handle),
    (h ∈ (Surface.clear_go st l dw wr).1.destroyed_swapchains →
      h ∈ st.destroyed_swapchains ∨
      ∃ e ∈ l, e.can_destroy = true ∧ e.swapchainHandle = some h) ∧
    (h ∈ (Surface.clear_go st l dw wr).1.destroyed_semaphores →
      h ∈ st.destroyed_semaphores ∨
      ∃ e ∈ l, e.can_destroy = true ∧ h ∈ entrySems e) := by
  intro l
  induction l with
  | nil =>
    intro st dw wr h
    constructor <;> intro hm <;> exact Or.inl (by simpa [Surface.clear_go] using hm)
  | cons e rest ih =>
    intro st dw wr h
    by_cases hd : e.can_destroy
    · have hstep : ∀ st2 : SurfaceState,
          (h ∈ (Surface.clear_go (destroyEntry st2 e) rest false wr).1.destroyed_swapchains →
            h ∈ st2.destroyed_swapchains ∨
            ∃ e2 ∈ e :: rest, e2.can_destroy = true ∧ e2.swapchainHandle = some h) ∧
          (h ∈ (Surface.clear_go (destroyEntry st2 e) rest false wr).1.destroyed_semaphores →
            h ∈ st2.destroyed_semaphores ∨
            ∃ e2 ∈ e :: rest, e2.can_destroy = true ∧ h ∈ entrySems e2) := by
        intro st2
        obtain ⟨ih1, ih2⟩ := ih (destroyEntry st2 e) false wr h
        obtain ⟨_, _, _, _, _, _, hd7, hd8⟩ := destroyEntry_fields st2 e
        constructor
        · intro hm
          rcases ih1 hm with hm2 | ⟨e2, he2, hc2, hh2⟩
          · rw [hd7] at hm2
            rcases List.mem_append.mp hm2 with hm3 | hm3
            · exact Or.inl hm3
            · refine Or.inr ⟨e, by simp, hd, ?_⟩
              cases hsw : e.swapchainHandle with
              | none => simp [hsw] at hm3
              | some h2 =>
                simp [hsw, Option.toList] at hm3
                simp [hsw, hm3]
          · exact Or.inr ⟨e2, List.mem_cons_of_mem e he2, hc2, hh2⟩
        · intro hm
          rcases ih2 hm with hm2 | ⟨e2, he2, hc2, hh2⟩
          · rw [hd8] at hm2
            rcases List.mem_append.mp hm2 with hm3 | hm3
            · exact Or.inl hm3
            · exact Or.inr ⟨e, by simp, hd, hm3⟩
          · exact Or.inr ⟨e2, List.mem_cons_of_mem e he2, hc2, hh2⟩
      cases dw with
      | false =>
        rw [show Surface.clear_go st (e :: rest) false wr =
            Surface.clear_go (destroyEntry st e) rest false wr by
          simp [Surface.clear_go, hd]]
        exact hstep st
      | true =>
        cases wr with
        | success =>
          rw [clear_go_true_go st e rest hd,
            show Surface.clear_go
                { st with wait_idle_count := st.wait_idle_count + 1 }
                (e :: rest) false .success =
              Surface.clear_go
                (destroyEntry { st with wait_idle_count := st.wait_idle_count + 1 } e)
                rest false .success by
            simp [Surface.clear_go, hd]]
          exact hstep { st with wait_idle_count := st.wait_idle_count + 1 }
        | errOutOfHostMemory =>
          constructor <;> intro hm <;>
            exact Or.inl (by simpa [Surface.clear_go, hd] using hm)
        | errOutOfDeviceMemory =>
          constructor <;> intro hm <;>
            exact Or.inl (by simpa [Surface.clear_go, hd] using hm)
        | errDeviceLost =>
          constructor <;> intro hm <;>
            exact Or.inl (by simpa [Surface.clear_go, hd] using hm)
    · constructor <;> intro hm <;>
        exact Or.inl (by simpa [Surface.clear_go, hd] using hm)

theorem clear_go_ext :
    ∀ (l : List MaybeFakeSwapchain) (st : SurfaceState) (dw : Bool) (wr : VkRes),
    (Surface.clear_go st l dw wr).1.lost = st.lost ∧
    (Surface.clear_go st l dw wr).1.current = st.current ∧
    ∃ t, (Surface.clear_go st l dw wr).1.destroyed_swapchains =
      st.destroyed_swapchains ++ t := by
  intro l
  induction l with
  | nil =>
    intro st dw wr
    exact ⟨rfl, rfl, [], by simp [Surface.clear_go]⟩
  | cons e rest ih =>
    intro st dw wr
    by_cases hd : e.can_destroy
    · have hstep : ∀ st2 : SurfaceState,
          (Surface.clear_go (destroyEntry st2 e) rest false wr).1.lost = st2.lost ∧
          (Surface.clear_go (destroyEntry st2 e) rest false wr).1.current = st2.current ∧
          ∃ t, (Surface.clear_go (destroyEntry st2 e) rest false wr).1.destroyed_swapchains =
            st2.destroyed_swapchains ++ t := by
        intro st2
        obtain ⟨i1, i2, t2, i3⟩ := ih (destroyEntry st2 e) false wr
        obtain ⟨_, e2, _, e4, _, _, e7, _⟩ := destroyEntry_fields st2 e
        refine ⟨i1.trans e2, i2.trans e4, e.swapchainHandle.toList ++ t2, ?_⟩
        rw [i3, e7, List.append_assoc]
      cases dw with
      | false =>
        rw [show Surface.clear_go st (e :: rest) false wr =
            Surface.clear_go (destroyEntry st e) rest false wr by
          simp [Surface.clear_go, hd]]
        exact hstep st
      | true =>
        cases wr with
        | success =>
          rw [clear_go_true_go st e rest hd,
            show Surface.clear_go
                { st with wait_idle_count := st.wait_idle_count + 1 }
                (e :: rest) false .success =
              Surface.clear_go
                (destroyEntry { st with wait_idle_count := st.wait_idle_count + 1 } e)
                rest false .success by
            simp [Surface.clear_go, hd]]
          exact hstep { st with wait_idle_count := st.wait_idle_count + 1 }
        | errOutOfHostMemory =>
          exact ⟨by simp [Surface.clear_go, hd], by simp [Surface.clear_go, hd],
            [], by simp [Surface.clear_go, hd]⟩
        | errOutOfDeviceMemory =>
          exact ⟨by simp [Surface.clear_go, hd], by simp [Surface.clear_go, hd],
            [], by simp [Surface.clear_go, hd]⟩
        | errDeviceLost =>
          exact ⟨by simp [Surface.clear_go, hd], by simp [Surface.clear_go, hd],
            [], by simp [Surface.clear_go, hd]⟩
    · exact ⟨by simp [Surface.clear_go, hd], by simp [Surface.clear_go, hd],
        [], by simp [Surface.clear_go, hd]⟩

theorem clear_retired_ext (st : SurfaceState) (dw : Bool) (wr : VkRes) :
    (Surface.clear_retired st dw wr).1.lost = st.lost ∧
    (Surface.clear_retired st dw wr).1.current = st.current ∧
    ∃ t, (Surface.clear_retired st dw wr).1.destroyed_swapchains =
      st.destroyed_swapchains ++ t := by
  unfold Surface.clear_retired
  exact clear_go_ext st.retired { st with retired := [] } dw wr

theorem force_clear_spec (st : SurfaceState) (wr : VkRes) :
    (Surface.force_clear_retired st wr).1.wait_idle_count = st.wait_idle_count + 1 ∧
    (Surface.force_clear_retired st wr).1.lost = st.lost ∧
    (Surface.force_clear_retired st wr).1.current = st.current ∧
    ∃ t, (Surface.force_clear_retired st wr).1.destroyed_swapchains =
      st.destroyed_swapchains ++ t := by
  unfold Surface.force_clear_retired
  cases wr with
  | errOutOfHostMemory => exact ⟨rfl, rfl, rfl, [], by simp⟩
  | errOutOfDeviceMemory => exact ⟨rfl, rfl, rfl, [], by simp⟩
  | errDeviceLost => exact ⟨rfl, rfl, rfl, [], by simp⟩
  | success =>
    dsimp only
    rw [clear_go_false_spec]
    obtain ⟨f1, f2, f3, f4, f5, f6, f7⟩ := destroyFold_spec
      (st.retired.takeWhile MaybeFakeSwapchain.can_destroy)
      { st with wait_idle_count := st.wait_idle_count + 1, retired := [] }
    dsimp only
    split <;>
      exact ⟨f3, f2, f4,
        realHandles (st.retired.takeWhile MaybeFakeSwapchain.can_destroy), f7⟩

theorem handle_retired_ext (st : SurfaceState) (wr1 wr2 : VkRes) :
    (Surface.handle_retired st wr1 wr2).1.lost = st.lost ∧
    (Surface.handle_retired st wr1 wr2).1.current = st.current ∧
    ∃ t, (Surface.handle_retired st wr1 wr2).1.destroyed_swapchains =
      st.destroyed_swapchains ++ t := by
  unfold Surface.handle_retired
  rcases hcl : Surface.clear_retired st true wr1 with ⟨st1, r1⟩
  obtain ⟨c1, c2, t1, c3⟩ := clear_retired_ext st true wr1
  rw [hcl] at c1 c2 c3
  cases r1 with
  | ok u =>
    cases u
    dsimp only
    dsimp only at c1 c2 c3
    split
    · obtain ⟨_, g2, g3, t2, g4⟩ := force_clear_spec st1 wr2
      exact ⟨g2.trans c1, g3.trans c2, t1 ++ t2,
        by rw [g4, c3, List.append_assoc]⟩
    · exact ⟨c1, c2, t1, c3⟩
  | err e => exact ⟨c1, c2, t1, c3⟩
  | abort => exact ⟨c1, c2, t1, c3⟩

/-- When the clear pass succeeds but the backlog has reached eight entries,
`handle_retired` escalates to the forced (unconditionally blocking) clear. -/
theorem handle_retired_forces (st : SurfaceState) (wr1 wr2 : VkRes)
    (st1 : SurfaceState) (hcl : Surface.clear_retired st true wr1 = (st1, .ok ()))
    (hbig : 8 ≤ st1.retired.length) :
    Surface.handle_retired st wr1 wr2 = Surface.force_clear_retired st1 wr2 := by
  unfold Surface.handle_retired
  rw [hcl]
  simp [hbig]

theorem build_images_destroyed :
    ∀ (n : Nat) (ext : Nat × Nat) (sems : List (VkRes × VkRes)) (st : SurfaceState),
    (Surface.build_images ext n sems st).1.destroyed_swapchains =
      st.destroyed_swapchains ∧
    (Surface.build_images ext n sems st).1.lost = st.lost := by
  intro n
  induction n with
  | zero => intro ext sems st; exact ⟨rfl, rfl⟩
  | succ m ih =>
    intro ext sems st
    unfold Surface.build_images
    dsimp only
    cases h1 : (sems.headD (VkRes.success, VkRes.success)).1 <;>
      simp only [map_oom] <;>
      try exact ⟨by trivial, by trivial⟩
    cases h2 : (sems.headD (VkRes.success, VkRes.success)).2 <;>
      simp only [map_oom] <;>
      try exact ⟨by trivial, by trivial⟩
    rcases hb : Surface.build_images ext m sems.tail
      { st with next_id := st.next_id + 1 + 1 + 1 } with ⟨stb, rb⟩
    obtain ⟨b1, b2⟩ := ih ext sems.tail { st with next_id := st.next_id + 1 + 1 + 1 }
    rw [hb] at b1 b2
    cases rb <;> exact ⟨b1, b2⟩

theorem clear_retired_empty (st : SurfaceState) (dw : Bool) (wr : VkRes)
    (h : st.retired = []) :
    Surface.clear_retired st dw wr = ({ st with retired := [] }, .ok ()) := by
  unfold Surface.clear_retired
  rw [h]
  rfl

theorem handle_retired_empty (st : SurfaceState) (wr1 wr2 : VkRes)
    (h : st.retired = []) :
    Surface.handle_retired st wr1 wr2 = ({ st with retired := [] }, .ok ()) := by
  unfold Surface.handle_retired
  rw [clear_retired_empty st true wr1 h]
  simp

/-- Once the surface is lost, a (re)initialization that gets past the
retirement handling fails with `SurfaceLost` before touching anything else:
no swapchain is created and the state is exactly what `handle_retired`
produced. -/
theorem init_lost_early (st : SurfaceState) (o : InitOracle) (hlost : st.lost = true)
    (st1 : SurfaceState)
    (hok : Surface.handle_retired st o.waitRes1 o.waitRes2 = (st1, .ok ())) :
    Surface.init st o = (st1, .err .surfaceLost) := by
  have hl1 : st1.lost = true := by
    have hx := (handle_retired_ext st o.waitRes1 o.waitRes2).1
    rw [hok] at hx
    exact hx.trans hlost
  unfold Surface.init
  rw [hok]
  simp [hl1]

/-- The `lost` flag is never cleared by `init`. -/
theorem init_lost_mono (st : SurfaceState) (o : InitOracle) (hlost : st.lost = true) :
    (Surface.init st o).1.lost = true := by
  rcases hok : Surface.handle_retired st o.waitRes1 o.waitRes2 with ⟨st1, r1⟩
  have hl1 : st1.lost = true := by
    have hx := (handle_retired_ext st o.waitRes1 o.waitRes2).1
    rw [hok] at hx
    exact hx.trans hlost
  cases r1 with
  | err e =>
    unfold Surface.init
    rw [hok]
    exact hl1
  | abort =>
    unfold Surface.init
    rw [hok]
    exact hl1
  | ok u =>
    cases u
    rw [init_lost_early st o hlost st1 hok]
    exact hl1

/-- The fake-swapchain branch of `init` never destroys anything. -/
theorem init_fake_destroyed (st : SurfaceState) (o : InitOracle) (w h : Nat)
    (old : Option MaybeFakeSwapchain) :
    (Surface.init_fake st o w h old).1.destroyed_swapchains =
      st.destroyed_swapchains := by
  unfold Surface.init_fake
  repeat' split
  all_goals rfl

/-- The real-swapchain branch of `init` never destroys anything. -/
theorem init_real_destroyed (st : SurfaceState) (o : InitOracle) (w h : Nat) :
    (Surface.init_real st o w h).1.destroyed_swapchains =
      st.destroyed_swapchains := by
  rcases h1 : o.createSwapchainRes with _ | _ | _ | _ | _ | _ <;>
    simp only [Surface.init_real, h1]
  case success =>
    rcases h2 : map_oom o.semaphoreRes with _ | _ | _ <;> simp only [h2]
    case ok =>
      rcases h3 : map_oom o.getImagesRes with _ | _ | _ <;> simp only [h3]
      case ok =>
        rcases hb : Surface.build_images (w, h) o.imageCount o.imageSems
          { st with next_id := st.next_id + 1 + 1 } with ⟨stb, rb⟩
        have hd := (build_images_destroyed o.imageCount (w, h) o.imageSems
          { st with next_id := st.next_id + 1 + 1 }).1
        rw [hb] at hd
        cases rb <;> exact hd

/-- `init` only ever appends to the destroyed-swapchain log. -/
theorem init_destroyed_ext (st : SurfaceState) (o : InitOracle) :
    ∃ t, (Surface.init st o).1.destroyed_swapchains =
      st.destroyed_swapchains ++ t := by
  unfold Surface.init
  rcases hok : Surface.handle_retired st o.waitRes1 o.waitRes2 with ⟨st1, r1⟩
  obtain ⟨_, _, t1, hd1⟩ := handle_retired_ext st o.waitRes1 o.waitRes2
  rw [hok] at hd1
  cases r1 with
  | err e => exact ⟨t1, hd1⟩
  | abort => exact ⟨t1, hd1⟩
  | ok u =>
    cases u
    dsimp only
    by_cases hl : st1.lost
    · simp only [hl, if_true]
      exact ⟨t1, hd1⟩
    · simp only [hl, if_false]
      repeat' split
      all_goals refine ⟨t1, ?_⟩
      all_goals try exact hd1
      all_goals try (rw [init_fake_destroyed]; exact hd1)
      all_goals (rw [init_real_destroyed]; exact hd1)

/-- Effects of the acquire loop: the `lost` flag is never cleared and the
destroyed-swapchain log only grows. -/
theorem loop_effects :
    ∀ (steps : List AcquireStep) (st st2 : SurfaceState) (r : Res SurfaceError Frame),
    Surface.next_frame_loop st steps = some (st2, r) →
    (st.lost = true → st2.lost = true) ∧
    ∃ t, st2.destroyed_swapchains = st.destroyed_swapchains ++ t := by
  intro steps
  induction steps with
  | nil =>
    intro st st2 r hl
    simp [Surface.next_frame_loop] at hl
  | cons step rest ih =>
    intro st st2 r hl
    unfold Surface.next_frame_loop at hl
    rcases hc : st.current with _ | (sc | f)
    · rw [hc] at hl
      exact Option.noConfusion hl
    · rw [hc] at hl
      dsimp only at hl
      rcases hs : step.res with ⟨idx, subopt⟩ | _ | _ | _ | _ <;>
        rw [hs] at hl <;> dsimp only at hl
      · rcases hg : sc.images.get? idx with _ | ⟨img, acq, pres⟩ <;>
          rw [hg] at hl <;> dsimp only at hl
        · exact Option.noConfusion hl
        · simp only [Option.some.injEq, Prod.mk.injEq] at hl
          obtain ⟨h1, h2⟩ := hl
          subst h1
          refine ⟨fun h => ?_, [], ?_⟩
          · dsimp only
            split <;> exact h
          · dsimp only
            split <;> simp
      · simp only [Option.some.injEq, Prod.mk.injEq] at hl
        obtain ⟨h1, h2⟩ := hl
        subst h1
        exact ⟨fun h => h, [], by simp⟩
      · simp only [Option.some.injEq, Prod.mk.injEq] at hl
        obtain ⟨h1, h2⟩ := hl
        subst h1
        exact ⟨fun h => h, [], by simp⟩
      · simp only [Option.some.injEq, Prod.mk.injEq] at hl
        obtain ⟨h1, h2⟩ := hl
        subst h1
        exact ⟨fun _ => rfl, [], by simp⟩
      · rcases hi : Surface.init st step.initO with ⟨st3, r3⟩
        rw [hi] at hl
        obtain ⟨t3, hd3⟩ := init_destroyed_ext st step.initO
        rw [hi] at hd3
        have hlost3 : st.lost = true → st3.lost = true := fun h => by
          have hx := init_lost_mono st step.initO h
          rw [hi] at hx
          exact hx
        cases r3 with
        | ok u =>
          dsimp only at hl
          obtain ⟨ihl, t4, ihd⟩ := ih st3 st2 r hl
          exact ⟨fun h => ihl (hlost3 h), t3 ++ t4,
            by rw [ihd, hd3, List.append_assoc]⟩
        | err e =>
          dsimp only at hl
          simp only [Option.some.injEq, Prod.mk.injEq] at hl
          obtain ⟨h1, h2⟩ := hl
          subst h1
          exact ⟨hlost3, t3, hd3⟩
        | abort =>
          dsimp only at hl
          simp only [Option.some.injEq, Prod.mk.injEq] at hl
          obtain ⟨h1, h2⟩ := hl
          subst h1
          exact ⟨hlost3, t3, hd3⟩
    · rw [hc] at hl
      dsimp only at hl
      simp only [Option.some.injEq, Prod.mk.injEq] at hl
      obtain ⟨h1, h2⟩ := hl
      subst h1
      refine ⟨fun h => ?_, [], ?_⟩
      · dsimp only
        split <;> exact h
      · dsimp only
        split <;> simp

/-- Effects of the acquire stage of `next_frame`. -/
theorem nf_acquire_effects (st : SurfaceState) (o : NextFrameOracle)
    (st2 : SurfaceState) (r : Res SurfaceError Frame)
    (h : Surface.nf_acquire st o = some (st2, r)) :
    (st.lost = true → st2.lost = true) ∧
    ∃ t, st2.destroyed_swapchains = st.destroyed_swapchains ++ t := by
  unfold Surface.nf_acquire at h
  rcases hini : (if st.current.isNone then Surface.init st o.initO else (st, Res.ok ()))
    with ⟨st1, r1⟩
  rw [hini] at h
  have hfx : (st.lost = true → st1.lost = true) ∧
      ∃ t, st1.destroyed_swapchains = st.destroyed_swapchains ++ t := by
    by_cases hcn : st.current.isNone
    · rw [if_pos hcn] at hini
      obtain ⟨t3, hd3⟩ := init_destroyed_ext st o.initO
      rw [hini] at hd3
      refine ⟨fun hx => ?_, t3, hd3⟩
      have hm := init_lost_mono st o.initO hx
      rw [hini] at hm
      exact hm
    · rw [if_neg hcn] at hini
      obtain ⟨e1, e2⟩ := Prod.mk.injEq .. |>.mp hini
      subst e1
      exact ⟨fun hx => hx, [], by simp⟩
  obtain ⟨hfl, t1, hfd⟩ := hfx
  cases r1 with
  | ok u =>
    dsimp only at h
    obtain ⟨ll, t2, ld⟩ := loop_effects o.steps st1 st2 r h
    exact ⟨fun hx => ll (hfl hx), t1 ++ t2, by rw [ld, hfd, List.append_assoc]⟩
  | err e =>
    dsimp only at h
    simp only [Option.some.injEq, Prod.mk.injEq] at h
    obtain ⟨h1, h2⟩ := h
    subst h1
    exact ⟨hfl, t1, hfd⟩
  | abort =>
    dsimp only at h
    simp only [Option.some.injEq, Prod.mk.injEq] at h
    obtain ⟨h1, h2⟩ := h
    subst h1
    exact ⟨hfl, t1, hfd⟩

/-- Effects of the cooldown stage of `next_frame`. -/
theorem nf_cooldown_effects (st : SurfaceState) (o : NextFrameOracle)
    (st2 : SurfaceState) (r : Res SurfaceError Frame)
    (h : Surface.nf_cooldown st o = some (st2, r)) :
    (st.lost = true → st2.lost = true) ∧
    ∃ t, st2.destroyed_swapchains = st.destroyed_swapchains ++ t := by
  unfold Surface.nf_cooldown at h
  rcases hsr : st.suboptimal_retire with n | _
  · rw [hsr] at h
    rcases n with _ | m <;> dsimp only at h
    · obtain ⟨hl2, t2, hd2⟩ := nf_acquire_effects st o st2 r h
      exact ⟨hl2, t2, hd2⟩
    · obtain ⟨hl2, t2, hd2⟩ :=
        nf_acquire_effects { st with suboptimal_retire := .cooldown m } o st2 r h
      exact ⟨hl2, t2, hd2⟩
  · rw [hsr] at h
    dsimp only at h
    rcases hi : Surface.init st o.retireInitO with ⟨st1, r1⟩
    rw [hi] at h
    obtain ⟨t3, hd3⟩ := init_destroyed_ext st o.retireInitO
    rw [hi] at hd3
    have hlost1 : st.lost = true → st1.lost = true := fun hx => by
      have hm := init_lost_mono st o.retireInitO hx
      rw [hi] at hm
      exact hm
    cases r1 with
    | ok u =>
      dsimp only at h
      obtain ⟨hl2, t2, hd2⟩ := nf_acquire_effects st1 o st2 r h
      exact ⟨fun hx => hl2 (hlost1 hx), t3 ++ t2,
        by rw [hd2, hd3, List.append_assoc]⟩
    | err e =>
      dsimp only at h
      simp only [Option.some.injEq, Prod.mk.injEq] at h
      obtain ⟨h1, h2⟩ := h
      subst h1
      exact ⟨hlost1, t3, hd3⟩
    | abort =>
      dsimp only at h
      simp only [Option.some.injEq, Prod.mk.injEq] at h
      obtain ⟨h1, h2⟩ := h
      subst h1
      exact ⟨hlost1, t3, hd3⟩

/-- Effects of `next_frame`: the `lost` flag is never cleared, and the
resulting destroyed-swapchain log extends the log produced by the opening
clear pass over the retirement queue. -/
theorem next_frame_effects (st : SurfaceState) (o : NextFrameOracle)
    (st2 : SurfaceState) (r : Res SurfaceError Frame)
    (h : Surface.next_frame st o = some (st2, r)) :
    (st.lost = true → st2.lost = true) ∧
    ∃ t, st2.destroyed_swapchains =
      (Surface.clear_retired st true o.clearWait).1.destroyed_swapchains ++ t := by
  unfold Surface.next_frame at h
  rcases hcl : Surface.clear_retired st true o.clearWait with ⟨stc, rc⟩
  rw [hcl] at h
  have hclost : st.lost = true → stc.lost = true := fun hx => by
    have hq := (clear_retired_ext st true o.clearWait).1
    rw [hcl] at hq
    exact hq.trans hx
  cases rc with
  | ok u =>
    dsimp only at h
    obtain ⟨hl2, t2, hd2⟩ := nf_cooldown_effects stc o st2 r h
    exact ⟨fun hx => hl2 (hclost hx), t2, hd2⟩
  | err e =>
    dsimp only at h
    simp only [Option.some.injEq, Prod.mk.injEq] at h
    obtain ⟨h1, h2⟩ := h
    subst h1
    exact ⟨hclost, [], by simp⟩
  | abort =>
    dsimp only at h
    simp only [Option.some.injEq, Prod.mk.injEq] at h
    obtain ⟨h1, h2⟩ := h
    subst h1
    exact ⟨hclost, [], by simp⟩

/-- On a lost surface with no current swapchain (and nothing retired, with a
running cooldown), `next_frame` fails immediately with `SurfaceLost`, leaving
the surface in the same must-reinitialize shape. -/
theorem next_frame_lost_no_current (st : SurfaceState) (o : NextFrameOracle) (n : Nat)
    (hl : st.lost = true) (hc : st.current = none) (hr : st.retired = [])
    (hs : st.suboptimal_retire = .cooldown (n + 1)) :
    ∃ st2, Surface.next_frame st o = some (st2, .err .surfaceLost) ∧
      st2.lost = true ∧ st2.current = none ∧ st2.retired = [] ∧
      st2.suboptimal_retire = .cooldown n := by
  have h1 : Surface.next_frame st o = Surface.nf_cooldown { st with retired := [] } o := by
    unfold Surface.next_frame
    rw [clear_retired_empty st true o.clearWait hr]
  have h2 : Surface.nf_cooldown { st with retired := [] } o =
      Surface.nf_acquire
        { st with retired := [], suboptimal_retire := SuboptimalRetire.cooldown n } o := by
    unfold Surface.nf_cooldown
    dsimp only
    rw [hs]
  have hcn : ({ st with retired := [], suboptimal_retire := SuboptimalRetire.cooldown n } : SurfaceState).current.isNone = true := by
    dsimp only
    rw [hc]
    rfl
  have hin : Surface.init
      { st with retired := [], suboptimal_retire := SuboptimalRetire.cooldown n }
      o.initO =
      ({ st with retired := [], suboptimal_retire := SuboptimalRetire.cooldown n },
        .err .surfaceLost) := by
    apply init_lost_early
    · exact hl
    · exact handle_retired_empty _ _ _ rfl
  have h3 : Surface.nf_acquire
      { st with retired := [], suboptimal_retire := SuboptimalRetire.cooldown n } o =
      some ({ st with retired := [], suboptimal_retire := SuboptimalRetire.cooldown n },
        .err .surfaceLost) := by
    unfold Surface.nf_acquire
    rw [if_pos hcn, hin]
  exact ⟨{ st with retired := [], suboptimal_retire := SuboptimalRetire.cooldown n },
    by rw [h1, h2, h3], hl, hc, rfl, rfl⟩

/-- C5: (1)/(2) a clear pass destroys a native swapchain handle or semaphore
only if it belonged to a retired entry all of whose images are detached;
(3) every `next_frame` call attempts reclamation: when the idle-wait
succeeds, the destroyable prefix of the retirement queue is destroyed and
stays destroyed in the final state; (4) surface teardown forces a blocking
idle-wait; (5) so does a backlog of eight retired entries after the clear
pass. -/
theorem C5_retirement_invariant :
    (∀ (st : SurfaceState) (dw : Bool) (wr : VkRes) (h : Handle),
      h ∈ (Surface.clear_retired st dw wr).1.destroyed_swapchains →
      h ∈ st.destroyed_swapchains ∨
      ∃ e ∈ st.retired, e.can_destroy = true ∧ e.swapchainHandle = some h) ∧
    (∀ (st : SurfaceState) (dw : Bool) (wr : VkRes) (h : Handle),
      h ∈ (Surface.clear_retired st dw wr).1.destroyed_semaphores →
      h ∈ st.destroyed_semaphores ∨
      ∃ e ∈ st.retired, e.can_destroy = true ∧ h ∈ entrySems e) ∧
    (∀ (st : SurfaceState) (o : NextFrameOracle) (st2 : SurfaceState)
      (r : Res SurfaceError Frame),
      o.clearWait = .success →
      Surface.next_frame st o = some (st2, r) →
      ∃ t, st2.destroyed_swapchains =
        st.destroyed_swapchains ++
          realHandles (st.retired.takeWhile MaybeFakeSwapchain.can_destroy) ++ t) ∧
    (∀ (st : SurfaceState) (wr : VkRes),
      (Surface.drop_clear st wr).1.wait_idle_count = st.wait_idle_count + 1) ∧
    (∀ (st st1 : SurfaceState) (wr1 wr2 : VkRes),
      Surface.clear_retired st true wr1 = (st1, .ok ()) →
      8 ≤ st1.retired.length →
      (Surface.handle_retired st wr1 wr2).1.wait_idle_count =
        st1.wait_idle_count + 1) := by
  refine ⟨?_, ?_, ?_, ?_, ?_⟩
  · intro st dw wr h hm
    exact (clear_go_destroys_detached st.retired { st with retired := [] } dw wr h).1 hm
  · intro st dw wr h hm
    exact (clear_go_destroys_detached st.retired { st with retired := [] } dw wr h).2 hm
  · intro st o st2 r hcw hnf
    obtain ⟨_, t, hd⟩ := next_frame_effects st o st2 r hnf
    rw [hcw] at hd
    obtain ⟨_, _, c3, _, _, _⟩ := clear_retired_true_success_spec st
    rw [c3] at hd
    exact ⟨t, hd⟩
  · intro st wr
    exact (force_clear_spec st wr).1
  · intro st st1 wr1 wr2 hcl hbig
    rw [handle_retired_forces st wr1 wr2 st1 hcl hbig]
    exact (force_clear_spec st1 wr2).1

/-- Witness for C5 at concrete states: the destroyed handle 5 of `exC5a`
came from a destroyable retired entry, and the eight-entry backlog of
`exC5b` forces an idle-wait. -/
theorem C5_retirement_invariant_witness :
    (5 ∈ exC5a.destroyed_swapchains ∨
      ∃ e ∈ exC5a.retired, e.can_destroy = true ∧ e.swapchainHandle = some 5) ∧
    (Surface.handle_retired exC5b .success .success).1.wait_idle_count =
      exC5b.wait_idle_count + 1 :=
  ⟨C5_retirement_invariant.1 exC5a false .success 5 (by decide),
   C5_retirement_invariant.2.2.2.2 exC5b exC5b .success .success rfl (by decide)⟩

/-- C8 counterexample: after a `next_frame` call observes surface loss (and
marks the surface lost), a subsequent `next_frame` call on the same surface
still returns a frame successfully — the spec's "every subsequent call fails
immediately with SurfaceLost" does not hold while a current swapchain
exists. -/
theorem C8_counterexample :
    (∃ st1, Surface.next_frame exC8a exNfLost = some (st1, .err .surfaceLost)) ∧
    exC8b.lost = true ∧
    (∃ st3 fr, Surface.next_frame exC8b exNfOk = some (st3, .ok fr)) :=
  ⟨⟨exC8b, rfl⟩, rfl, ⟨exC8c.1, _, rfl⟩⟩

/-- C8 (amended): the `lost` flag is permanent — no `next_frame` call ever
clears it — and a `next_frame` call that must (re)initialize a swapchain
(no current swapchain; here with an empty retirement queue and a running
cooldown) fails immediately with `SurfaceLost` on a lost surface, as does
`init` itself once past retirement handling. -/
theorem C8_lost_amended :
    (∀ (st : SurfaceState) (o : NextFrameOracle) (st2 : SurfaceState)
      (r : Res SurfaceError Frame),
      Surface.next_frame st o = some (st2, r) → st.lost = true → st2.lost = true) ∧
    (∀ (st : SurfaceState) (o : NextFrameOracle) (n : Nat),
      st.lost = true → st.current = none → st.retired = [] →
      st.suboptimal_retire = .cooldown (n + 1) →
      ∃ st2, Surface.next_frame st o = some (st2, .err .surfaceLost) ∧
        st2.lost = true ∧ st2.current = none ∧ st2.retired = [] ∧
        st2.suboptimal_retire = .cooldown n) ∧
    (∀ (st : SurfaceState) (o : InitOracle) (st1 : SurfaceState),
      st.lost = true →
      Surface.handle_retired st o.waitRes1 o.waitRes2 = (st1, .ok ()) →
      Surface.init st o = (st1, .err .surfaceLost)) := by
  refine ⟨?_, ?_, ?_⟩
  · intro st o st2 r hnf hl
    exact (next_frame_effects st o st2 r hnf).1 hl
  · intro st o n hl hc hr hs
    exact next_frame_lost_no_current st o n hl hc hr hs
  · intro st o st1 hl hok
    exact init_lost_early st o hl st1 hok

/-- Witness for C8 (amended) at concrete states: the lost flag survives the
successful `next_frame` call on `exC8b`, and a lost surface without a
current swapchain fails with `SurfaceLost`. -/
theorem C8_lost_amended_witness :
    exC8c.1.lost = true ∧
    (∃ st2, Surface.next_frame exC8d exNfOk = some (st2, .err .surfaceLost) ∧
      st2.lost = true ∧ st2.current = none ∧ st2.retired = [] ∧
      st2.suboptimal_retire = .cooldown 2) :=
  ⟨C8_lost_amended.1 exC8b exNfOk exC8c.1 exC8c.2 rfl rfl,
   C8_lost_amended.2.1 exC8d exNfOk 2 rfl rfl rfl rfl⟩

/-- C9 counterexample: initializing against a platform-reported extent of
0×7 installs a fake swapchain whose stand-in image has extent 1×7, not the
1×1 promised by the spec. -/
theorem C9_counterexample :
    (Surface.init exSurf0 exInitOk).2 = .ok () ∧
    exInitOk.capsRes = .ok (0, 7) ∧
    (Surface.init exSurf0 exInitOk).1.current = some (.fake exC9fake) ∧
    exC9fake.image.extent ≠ (1, 1) :=
  ⟨rfl, rfl, rfl, by decide⟩

/-- C9 (amended): when initialization observes a zero-width or zero-height
extent, an existing fake swapchain is kept unchanged; otherwise a fake
swapchain is installed whose single detached stand-in image has extent
`max w 1 × max h 1` (1×1 exactly when both dimensions are zero). -/
theorem C9_fake_extent_amended :
    (∀ (st : SurfaceState) (o : InitOracle) (w h : Nat) (f : FakeSwapchain),
      st.lost = false → st.retired = [] → o.capsRes = .ok (w, h) →
      (w = 0 ∨ h = 0) → st.current = some (.fake f) →
      Surface.init st o =
        ({ st with retired := [], suboptimal_retire := .cooldown SUBOPTIMAL_RETIRE_COOLDOWN, current := some (.fake f) }, .ok ())) ∧
    (∀ (st : SurfaceState) (o : InitOracle) (w h : Nat),
      st.lost = false → st.retired = [] → o.capsRes = .ok (w, h) →
      (w = 0 ∨ h = 0) → st.current = none →
      o.newImageRes = .success → o.semaphoreRes = .success →
      ∃ f : FakeSwapchain,
        (Surface.init st o).1.current = some (.fake f) ∧
        (Surface.init st o).2 = .ok () ∧
        f.image.extent = (max w 1, max h 1) ∧
        f.image.detached = true) := by
  constructor
  · intro st o w h f hlost hr hcaps hzero hcur
    unfold Surface.init
    rw [handle_retired_empty st o.waitRes1 o.waitRes2 hr]
    dsimp only
    rw [if_neg (by simp [hlost])]
    rw [hcaps]
    dsimp only
    rw [hcur, if_pos hzero]
    unfold Surface.init_fake
    rfl
  · intro st o w h hlost hr hcaps hzero hcur hni hsem
    have key : Surface.init st o =
        ({ st with retired := [], suboptimal_retire := .cooldown SUBOPTIMAL_RETIRE_COOLDOWN, current := some (.fake { image := { handle := st.next_id, detached := true, extent := (max w 1, max h 1) }, semaphore := st.next_id + 1, frame_idx := 0 }), next_id := st.next_id + 1 + 1 }, .ok ()) := by
      unfold Surface.init
      rw [handle_retired_empty st o.waitRes1 o.waitRes2 hr]
      dsimp only
      rw [if_neg (by simp [hlost])]
      rw [hcaps]
      dsimp only
      rw [hcur, if_pos hzero]
      unfold Surface.init_fake
      dsimp only
      rw [hni, hsem]
      rfl
    refine ⟨{ image := { handle := st.next_id, detached := true, extent := (max w 1, max h 1) }, semaphore := st.next_id + 1, frame_idx := 0 }, ?_, ?_, rfl, rfl⟩
    · rw [key]
    · rw [key]

/-- Witness for C9 (amended) at concrete inputs: keeping the fake of
`exC9keep` and installing a fresh 1×7 fake on `exSurf0`, both against the
0×7 capability report. -/
theorem C9_fake_extent_amended_witness :
    Surface.init exC9keep exInitOk =
      ({ exC9keep with retired := [], suboptimal_retire := .cooldown SUBOPTIMAL_RETIRE_COOLDOWN, current := some (.fake exC9fake) }, .ok ()) ∧
    (∃ f : FakeSwapchain,
      (Surface.init exSurf0 exInitOk).1.current = some (.fake f) ∧
      (Surface.init exSurf0 exInitOk).2 = .ok () ∧
      f.image.extent = (max 0 1, max 7 1) ∧
      f.image.detached = true) :=
  ⟨C9_fake_extent_amended.1 exC9keep exInitOk 0 7 exC9fake rfl rfl rfl
      (Or.inl rfl) rfl,
   C9_fake_extent_amended.2 exSurf0 exInitOk 0 7 rfl rfl rfl (Or.inl rfl)
      rfl rfl rfl⟩

end Mev
